import Mathlib

/-!
# Verification of the Project_Refinement terminal core

A shallow embedding of the gameplay core of `TerminalActor.cpp`
(grid generation, wrapped coordinates, scary tiles, the proximity sensor,
progress bars, the day/file state machine, the snake-drop resolver and the
trackball scroll accumulator), together with theorems settling the spec's
testable properties against this embedding.

Machine floats are embedded as exact rationals (`ℚ`), `int32` values as `ℤ`
with the C truncated `%` and `/` (`Int.tmod` / `Int.tdiv`), and `TArray`
fields as Lean lists accessed through guarded index helpers that mirror
`IsValidIndex`.  Randomness (`FMath::RandRange`) is threaded explicitly as
an oracle: a draw counter plus a function from draw number and bounds to a
value; `RngOk` states the oracle respects the requested bounds.
-/

namespace ProjectRefinement

/-- C-style wrap used throughout `TerminalActor.cpp`: truncated remainder
(`Int.tmod`, the semantics of `%` on `int32`), plus the modulus when the
remainder is negative. -/
def wrapMod (x n : ℤ) : ℤ :=
  let r := Int.tmod x n
  if r < 0 then r + n else r

/-- Guarded list validity test with an `ℤ` index, mirroring `TArray::IsValidIndex`. -/
def validIdx {α : Type} (l : List α) (i : ℤ) : Bool :=
  decide (0 ≤ i) && decide (i < (l.length : ℤ))

/-- Guarded list lookup with an `ℤ` index and an explicit default. -/
def lgetD {α : Type} (l : List α) (i : ℤ) (d : α) : α :=
  if 0 ≤ i then l.getD i.toNat d else d

/-- Guarded list update with an `ℤ` index (out-of-range writes are dropped,
as `List.set` ignores out-of-range indices). -/
def lset {α : Type} (l : List α) (i : ℤ) (a : α) : List α :=
  if 0 ≤ i then l.set i.toNat a else l

/-- `FMath::Clamp` on rationals. -/
def clampQ (v lo hi : ℚ) : ℚ := min (max v lo) hi

/-- The C cast `(int32)x` on a float: truncation toward zero. -/
def truncQ (q : ℚ) : ℤ := if q < 0 then ⌈q⌉ else ⌊q⌋

/-- Random oracle: a draw counter and a function giving, for each draw
number and requested bounds, the value `FMath::RandRange` returns. -/
structure Rng where
  idx : ℕ
  f : ℕ → ℤ → ℤ → ℤ

/-- One `FMath::RandRange(lo, hi)` draw. -/
def randRange (lo hi : ℤ) (r : Rng) : ℤ × Rng :=
  (r.f r.idx lo hi, ⟨r.idx + 1, r.f⟩)

/-- The oracle respects the requested inclusive bounds. -/
def RngOk (f : ℕ → ℤ → ℤ → ℤ) : Prop :=
  ∀ n lo hi, lo ≤ hi → lo ≤ f n lo hi ∧ f n lo hi ≤ hi

/-- The mutable state of `ATerminalActor` relevant to the core gameplay
logic (components, timers and purely presentational fields omitted). -/
structure TState where
  gridWidth : ℤ
  gridHeight : ℤ
  globalMapWidth : ℤ
  globalMapHeight : ℤ
  globalGridNumbers : List ℤ
  scaryActive : List Bool
  primeIndices : List ℤ
  progressBars : List ℚ
  pendingChunkValue : ℚ
  bBarCoolingDown : List Bool
  barCooldownRemaining : List ℚ
  barCooldownSeconds : ℚ
  filesPerDay : ℤ
  filesRefinedCount : ℤ
  bDayActive : Bool
  dayStartTime : ℚ
  scrollX : ℤ
  scrollY : ℤ
  scrollSensitivity : ℚ
  accumulatorX : ℚ
  accumulatorY : ℚ
  maxSensorDistance : ℚ
deriving DecidableEq, Repr

/-- The notifications the core emits (Blueprint events and the overridable
all-bars-full hook), recorded in emission order. -/
inductive TEvent where
  | onProgressUpdated (barIndex : ℤ) (newValue : ℚ)
  | onChunkConsumed
  | onAllBarsFull
  | onFileCompleted (filesDone filesTarget : ℤ)
  | bpOnDayComplete (durationSeconds : ℚ)
  | bpOnShowFileSelection
  | onGridScrolled
deriving DecidableEq, Repr

/-- `IsPrime`: the game's closed enumeration of primes. -/
def isPrime (n : ℤ) : Bool :=
  n == 2 || n == 3 || n == 5 || n == 7

/-- `GetGlobalIndexFromScreenIndex`: screen index to global index, with C
truncated `%` and `/` for the screen decomposition and the shared wrap rule
for the global coordinates. -/
def getGlobalIndexFromScreenIndex (s : TState) (screenIndex : ℤ) : ℤ :=
  let screenX := Int.tmod screenIndex s.gridWidth
  let screenY := Int.tdiv screenIndex s.gridWidth
  let rawGlobalX := s.scrollX + screenX
  let rawGlobalY := s.scrollY + screenY
  wrapMod rawGlobalY s.globalMapHeight * s.globalMapWidth +
    wrapMod rawGlobalX s.globalMapWidth

/-- `IsIndexScary`: convert the screen index and check `ScaryActive` under a
validity guard. -/
def isIndexScary (s : TState) (screenIndex : ℤ) : Bool :=
  let globalIdx := getGlobalIndexFromScreenIndex s screenIndex
  if validIdx s.scaryActive globalIdx then lgetD s.scaryActive globalIdx false
  else false

/-- `GetGridNumber`: wrapped 2-D lookup into the global grid, returning 0
when the resulting index is out of range. -/
def getGridNumber (s : TState) (gridX gridY : ℤ) : ℤ :=
  let wrappedX := wrapMod gridX s.globalMapWidth
  let wrappedY := wrapMod gridY s.globalMapHeight
  let globalIdx := wrappedY * s.globalMapWidth + wrappedX
  if validIdx s.globalGridNumbers globalIdx then lgetD s.globalGridNumbers globalIdx 0
  else 0

/-- `ResetProgressBars`: zero the four bars and notify the UI once per bar. -/
def resetProgressBars (s : TState) : TState × List TEvent :=
  ({ s with progressBars := List.replicate 4 0 },
   [TEvent.onProgressUpdated 0 0, TEvent.onProgressUpdated 1 0,
    TEvent.onProgressUpdated 2 0, TEvent.onProgressUpdated 3 0])

/-- `IsBarAvailable`: false on an invalid index, otherwise neither cooling
nor already full. -/
def isBarAvailable (s : TState) (barIndex : ℤ) : Bool :=
  if validIdx s.bBarCoolingDown barIndex = false ∨
     validIdx s.progressBars barIndex = false then false
  else
    let bIsCooling := lgetD s.bBarCoolingDown barIndex false
    let bIsFull := decide (1 ≤ lgetD s.progressBars barIndex 0)
    !bIsCooling && !bIsFull

/-- `GetBarCooldownRatio`: 0 on an invalid index or nonpositive cooldown
duration, otherwise the clamped remaining/total ratio. -/
def getBarCooldownRatio (s : TState) (barIndex : ℤ) : ℚ :=
  if validIdx s.barCooldownRemaining barIndex = false ∨ s.barCooldownSeconds ≤ 0 then 0
  else clampQ (lgetD s.barCooldownRemaining barIndex 0 / s.barCooldownSeconds) 0 1

/-- `IsBarFull`: guarded test whether one bar reached 1. -/
def isBarFull (s : TState) (barIndex : ℤ) : Bool :=
  if validIdx s.progressBars barIndex then decide (1 ≤ lgetD s.progressBars barIndex 0)
  else false

/-- `GetMasterProgress`: clamped mean of the four bars. -/
def getMasterProgress (s : TState) : ℚ :=
  clampQ (s.progressBars.sum / 4) 0 1

/-- `AllBarsFull`: false as soon as one bar is below 1. -/
def allBarsFull (s : TState) : Bool :=
  s.progressBars.all (fun bar => !(decide (bar < 1)))

/-- `OnFileWorkComplete` (with the current wall-clock time passed in for
`GetWorld()->GetTimeSeconds()`): bump the file counter, notify, and either
finish the day (no bar reset) or reset the bars and request file selection. -/
def onFileWorkComplete (now : ℚ) (s : TState) : TState × List TEvent :=
  let s1 := { s with filesRefinedCount := s.filesRefinedCount + 1 }
  let ev := [TEvent.onFileCompleted s1.filesRefinedCount s1.filesPerDay]
  if s1.filesPerDay ≤ s1.filesRefinedCount then
    let s2 := { s1 with bDayActive := false }
    (s2, ev ++ [TEvent.bpOnDayComplete (now - s1.dayStartTime)])
  else
    let r := resetProgressBars s1
    (r.1, ev ++ r.2 ++ [TEvent.bpOnShowFileSelection])

/-- `ApplChunkToBar`: guarded application of the pending chunk (with the
1.5 reward multiplier and clamping), then the master-progress completion
check followed by the all-bars-full check — sequentially, on whatever state
the completion handler left behind. -/
def applChunkToBar (now : ℚ) (barIndex : ℤ) (s : TState) : TState × List TEvent :=
  if s.bDayActive = false ∨ s.pendingChunkValue ≤ 0 then (s, [])
  else if validIdx s.progressBars barIndex = false ∨
          1 ≤ lgetD s.progressBars barIndex 0 then (s, [])
  else
    let newValue := clampQ (lgetD s.progressBars barIndex 0 +
      s.pendingChunkValue * (3 / 2)) 0 1
    let s1 := { s with progressBars := lset s.progressBars barIndex newValue,
                       pendingChunkValue := 0 }
    let events1 := [TEvent.onChunkConsumed, TEvent.onProgressUpdated barIndex newValue]
    if 1 ≤ getMasterProgress s1 then
      let fc := onFileWorkComplete now s1
      if allBarsFull fc.1 then (fc.1, events1 ++ fc.2 ++ [TEvent.onAllBarsFull])
      else (fc.1, events1 ++ fc.2)
    else
      if allBarsFull s1 then (s1, events1 ++ [TEvent.onAllBarsFull])
      else (s1, events1)

/-- `ApplyTrackballInput`: accumulate the sign-inverted scaled input, move
the integer part into the scroll position, keep the fractional remainder,
and wrap both coordinates. -/
def applyTrackballInput (axisX axisY : ℚ) (s : TState) : TState × List TEvent :=
  let accX1 := s.accumulatorX + axisX * (-1) * s.scrollSensitivity
  let accY1 := s.accumulatorY + axisY * (-1) * s.scrollSensitivity
  let sx1 := s.scrollX + truncQ accX1
  let sy1 := s.scrollY + truncQ accY1
  ({ s with scrollX := wrapMod sx1 s.globalMapWidth,
            scrollY := wrapMod sy1 s.globalMapHeight,
            accumulatorX := accX1 - (truncQ accX1 : ℚ),
            accumulatorY := accY1 - (truncQ accY1 : ℚ) },
   [TEvent.onGridScrolled])

/-- `GenerateGrid` step 1: fill `n` cells with fresh `[1,9]` draws, in draw
order. -/
def fillRandom : ℕ → Rng → List ℤ × Rng
  | 0, r => ([], r)
  | n + 1, r =>
      let draw := randRange 1 9 r
      let rest := fillRandom n draw.2
      (draw.1 :: rest.1, rest.2)

/-- The loop starts `for (v = 0; v < limit; v += 50)` visits `50*j` for
`j < ⌈limit/50⌉`. -/
def sectorStarts (limit : ℤ) : List ℤ :=
  (List.range ((limit + 49).toNat / 50)).map (fun (j : ℕ) => (50 : ℤ) * j)

/-- The sector origins `(y, x)` in the traversal order of `GenerateGrid`
(outer loop on y, inner loop on x). -/
def sectorPairs (s : TState) : List (ℤ × ℤ) :=
  (sectorStarts s.globalMapHeight).flatMap
    (fun y => (sectorStarts s.globalMapWidth).map (fun x => (y, x)))

/-- `GenerateGrid` step 2: per sector, draw the x offset then the y offset
in `[5, 45]`, and set the scary flag at `randY * width + randX` when that
index is valid. -/
def spawnScary : List (ℤ × ℤ) → List Bool → ℤ → Rng → List Bool × Rng
  | [], flags, _, r => (flags, r)
  | yx :: rest, flags, w, r =>
      let drawX := randRange 5 45 r
      let drawY := randRange 5 45 drawX.2
      let randX := yx.2 + drawX.1
      let randY := yx.1 + drawY.1
      let globalIdx := randY * w + randX
      let flags1 := if validIdx flags globalIdx then lset flags globalIdx true else flags
      spawnScary rest flags1 w drawY.2

/-- `GenerateGrid`: size the two global arrays to `width*height`, fill the
values with `[1,9]` draws, then spawn one scary flag per 50 by 50 sector.
(The trailing `OnGridScrolled` notification carries no state.) -/
def generateGrid (s : TState) (r : Rng) : TState × Rng :=
  let totalGlobalCount := (s.globalMapWidth * s.globalMapHeight).toNat
  let fill := fillRandom totalGlobalCount r
  let spawn := spawnScary (sectorPairs s) (List.replicate totalGlobalCount false)
    s.globalMapWidth fill.2
  ({ s with globalGridNumbers := fill.1, scaryActive := spawn.1 }, spawn.2)

/-- `HighlightRandomPrime`: candidates are the entries of `PrimeIndices`
that are valid and not already scary; if any exist, one uniformly drawn
candidate becomes scary. -/
def primeCandidates (s : TState) : List ℤ :=
  s.primeIndices.filter
    (fun idx => validIdx s.scaryActive idx && !(lgetD s.scaryActive idx false))

/-- `HighlightRandomPrime` itself. -/
def highlightRandomPrime (s : TState) (r : Rng) : TState × Rng :=
  if s.primeIndices.length = 0 then (s, r)
  else
    let candidates := primeCandidates s
    if candidates.length = 0 then (s, r)
    else
      let draw := randRange 0 ((candidates.length : ℤ) - 1) r
      let chosen := lgetD candidates draw.1 0
      ({ s with scaryActive := lset s.scaryActive chosen true }, draw.2)

/-- The per-tile loop of `HandleScaryDrop`: skip entries whose wrapped
global index is invalid; otherwise read the value, take `value * 0.005`,
quadruple it and clear the flag when the tile is scary, respawn the value
with a fresh `[1,9]` draw, and accumulate the contribution. -/
def scaryDropLoop : List ℤ → TState → Rng → TState × ℚ × Rng
  | [], s, r => (s, 0, r)
  | screenIdx :: rest, s, r =>
      let globalIdx := getGlobalIndexFromScreenIndex s screenIdx
      if validIdx s.globalGridNumbers globalIdx then
        let numberValue := lgetD s.globalGridNumbers globalIdx 0
        let base := (numberValue : ℚ) * (5 / 1000)
        let isScaryTile := validIdx s.scaryActive globalIdx &&
          lgetD s.scaryActive globalIdx false
        let contribution := if isScaryTile then base * 4 else base
        let scary1 := if isScaryTile then lset s.scaryActive globalIdx false
          else s.scaryActive
        let draw := randRange 1 9 r
        let s1 := { s with scaryActive := scary1,
                           globalGridNumbers := lset s.globalGridNumbers globalIdx draw.1 }
        let next := scaryDropLoop rest s1 draw.2
        (next.1, contribution + next.2.1, next.2.2)
      else
        scaryDropLoop rest s r

/-- `HandleScaryDrop`: run the tile loop, store the total as the pending
chunk, immediately apply it to the chosen bar, then refresh the UI. -/
def handleScaryDrop (now : ℚ) (tileIndices : List ℤ) (barIndex : ℤ)
    (s : TState) (r : Rng) : TState × List TEvent × Rng :=
  let loop := scaryDropLoop tileIndices s r
  let s2 := { loop.1 with pendingChunkValue := loop.2.1 }
  let ap := applChunkToBar now barIndex s2
  (ap.1, ap.2 ++ [TEvent.onGridScrolled], loop.2.2)

/-- Detection window of `GetSensorProximityValue`: raw (unwrapped) scan
coordinates, outer loop on y then x, each ranging over
`scroll - 16 .. scroll + 26`. -/
def scanCells (s : TState) : List (ℤ × ℤ) :=
  (List.range 43).flatMap (fun (jy : ℕ) =>
    (List.range 43).map (fun (jx : ℕ) =>
      (s.scrollX - 16 + (jx : ℤ), s.scrollY - 16 + (jy : ℤ))))

/-- Scary test of a raw scan coordinate after wrapping, as in the sensor
scan body. -/
def scaryAtRaw (s : TState) (x y : ℤ) : Bool :=
  let wrappedX := wrapMod x s.globalMapWidth
  let wrappedY := wrapMod y s.globalMapHeight
  let globalIdx := wrappedY * s.globalMapWidth + wrappedX
  validIdx s.scaryActive globalIdx && lgetD s.scaryActive globalIdx false

/-- Continuous viewport center, x coordinate (`ScrollX + AccumulatorX + 4.5`). -/
def sensorCenterX (s : TState) : ℚ := (s.scrollX : ℚ) + s.accumulatorX + 9 / 2

/-- Continuous viewport center, y coordinate. -/
def sensorCenterY (s : TState) : ℚ := (s.scrollY : ℚ) + s.accumulatorY + 9 / 2

/-- Squared distance from a raw scan coordinate to the continuous center. -/
def distSqTo (s : TState) (p : ℤ × ℤ) : ℚ :=
  ((p.1 : ℚ) - sensorCenterX s) ^ 2 + ((p.2 : ℚ) - sensorCenterY s) ^ 2

/-- One step of the sensor scan: on a scary cell whose squared distance
beats the running minimum, lower the minimum and mark a find. -/
def sensorStep (s : TState) (acc : ℚ × Bool) (p : ℤ × ℤ) : ℚ × Bool :=
  if scaryAtRaw s p.1 p.2 then
    let d := distSqTo s p
    if d < acc.1 then (d, true) else acc
  else acc

/-- The whole scan of `GetSensorProximityValue`: running minimum seeded
with the squared fixed internal detection radius 15, found flag false. -/
def sensorFold (s : TState) : ℚ × Bool :=
  (scanCells s).foldl (sensorStep s) (225, false)

/-- `FMath::Clamp` on reals, for the sensor's final conversion. -/
def clampR (v lo hi : ℝ) : ℝ := min (max v lo) hi

/-- `GetSensorProximityValue`: 0 when nothing was found within the initial
threshold, otherwise `clamp(1 - sqrt(minDistSq) / 15, 0, 1)`.  Only this
final square root lives in `ℝ`; the scan itself is the executable
`sensorFold`. -/
noncomputable def getSensorProximityValue (s : TState) : ℝ :=
  if (sensorFold s).2 then
    clampR (1 - Real.sqrt (((sensorFold s).1 : ℚ) : ℝ) / 15) 0 1
  else 0

/-! ## Basic facts about the wrap rule -/

theorem tmod_neg_dividend (a b : ℤ) : (-a).tmod b = -(a.tmod b) := by
  rw [Int.tmod_def, Int.tmod_def, Int.neg_tdiv]
  ring

theorem tmod_pos_bounds (x n : ℤ) (hn : 0 < n) : -n < x.tmod n ∧ x.tmod n < n := by
  rcases le_or_lt 0 x with hx | hx
  · have h1 : 0 ≤ x.tmod n := Int.tmod_nonneg n hx
    have h2 : x.tmod n < n := Int.tmod_lt_of_pos x hn
    omega
  · have hx' : 0 ≤ -x := by omega
    have h1 : 0 ≤ (-x).tmod n := Int.tmod_nonneg n hx'
    have h2 : (-x).tmod n < n := Int.tmod_lt_of_pos (-x) hn
    have h3 : (-x).tmod n = -(x.tmod n) := tmod_neg_dividend x n
    omega

theorem wrapMod_bounds (x n : ℤ) (hn : 0 < n) : 0 ≤ wrapMod x n ∧ wrapMod x n < n := by
  have h := tmod_pos_bounds x n hn
  unfold wrapMod
  dsimp only
  split <;> omega

theorem wrapMod_eq_emod (x n : ℤ) (hn : 0 < n) : wrapMod x n = x % n := by
  have hb := wrapMod_bounds x n hn
  have hdecomp : ∃ q : ℤ, x = wrapMod x n + n * q := by
    have h := Int.tmod_add_tdiv x n
    unfold wrapMod
    dsimp only
    split
    · exact ⟨x.tdiv n - 1, by linarith⟩
    · exact ⟨x.tdiv n, by linarith⟩
  obtain ⟨q, hq⟩ := hdecomp
  calc wrapMod x n = wrapMod x n % n := (Int.emod_eq_of_lt hb.1 hb.2).symm
    _ = (wrapMod x n + n * q) % n := (Int.add_mul_emod_self_left (wrapMod x n) n q).symm
    _ = x % n := by rw [← hq]

theorem wrapMod_idem (x n : ℤ) (hn : 0 < n) : wrapMod (wrapMod x n) n = wrapMod x n := by
  have hb := wrapMod_bounds x n hn
  rw [wrapMod_eq_emod _ n hn, Int.emod_eq_of_lt hb.1 hb.2]

theorem wrapMod_add_left (a b n : ℤ) (hn : 0 < n) :
    wrapMod (wrapMod a n + b) n = wrapMod (a + b) n := by
  rw [wrapMod_eq_emod _ n hn, wrapMod_eq_emod a n hn, wrapMod_eq_emod _ n hn,
    Int.emod_add_emod]

theorem wrapMod_fixed (x n : ℤ) (h0 : 0 ≤ x) (h1 : x < n) : wrapMod x n = x := by
  rw [wrapMod_eq_emod x n (lt_of_le_of_lt h0 h1), Int.emod_eq_of_lt h0 h1]

/-! ## Basic facts about the guarded list helpers -/

theorem length_lset {α : Type} (l : List α) (i : ℤ) (a : α) :
    (lset l i a).length = l.length := by
  unfold lset
  split <;> simp

theorem lgetD_lset_self {α : Type} (l : List α) (i : ℤ) (a d : α)
    (h0 : 0 ≤ i) (h1 : i < (l.length : ℤ)) : lgetD (lset l i a) i d = a := by
  unfold lgetD lset
  rw [if_pos h0, if_pos h0]
  have hlt : i.toNat < l.length := by omega
  rw [List.getD_eq_getElem _ _ (by simpa using hlt)]
  simp [List.getElem_set_self]

theorem lgetD_lset_ne {α : Type} (l : List α) (i j : ℤ) (a d : α)
    (hne : i ≠ j) : lgetD (lset l i a) j d = lgetD l j d := by
  unfold lgetD lset
  split
  · split
    · rcases lt_or_ge j (l.length : ℤ) with hj | hj
      · have hij : i.toNat ≠ j.toNat := by omega
        rw [List.getD_eq_getElem _ _ (by rw [List.length_set]; omega),
          List.getD_eq_getElem _ _ (by omega)]
        simp [List.getElem_set_ne hij]
      · rw [List.getD_eq_default _ _ (by rw [List.length_set]; omega),
          List.getD_eq_default _ _ (by omega)]
    · rfl
  · rfl

theorem validIdx_iff {α : Type} (l : List α) (i : ℤ) :
    validIdx l i = true ↔ 0 ≤ i ∧ i < (l.length : ℤ) := by
  unfold validIdx
  simp

theorem lgetD_replicate (n : ℕ) (i : ℤ) : lgetD (List.replicate n false) i false = false := by
  unfold lgetD
  split
  · rcases lt_or_ge i.toNat n with h | h
    · rw [List.getD_eq_getElem _ _ (by simpa using h)]
      simp
    · rw [List.getD_eq_default _ _ (by simpa using h)]
  · rfl

/-! ## Basic facts about clamping and truncation -/

theorem clampQ_mem (v lo hi : ℚ) (h : lo ≤ hi) :
    lo ≤ clampQ v lo hi ∧ clampQ v lo hi ≤ hi := by
  unfold clampQ
  constructor
  · exact le_min (le_max_right v lo) h
  · exact min_le_right _ _

theorem truncQ_frac_bounds (q : ℚ) : -1 < q - (truncQ q : ℚ) ∧ q - (truncQ q : ℚ) < 1 := by
  unfold truncQ
  split
  · have h1 : q ≤ (⌈q⌉ : ℚ) := Int.le_ceil q
    have h2 : (⌈q⌉ : ℚ) < q + 1 := Int.ceil_lt_add_one q
    constructor <;> linarith
  · have h1 : (⌊q⌋ : ℚ) ≤ q := Int.floor_le q
    have h2 : q < (⌊q⌋ : ℚ) + 1 := Int.lt_floor_add_one q
    constructor <;> linarith

/-! ## C7: the wrapping invariant -/

/-- C7: for every integer x and modulus N > 0, the wrap rule (truncated
remainder, plus N when negative) lands in [0, N) and is invariant under
shifting x by ±N; and this same rule is the coordinate reduction inside
both `getGridNumber` and `getGlobalIndexFromScreenIndex`. -/
theorem c7_wrapping_invariant :
    (∀ x n : ℤ, 0 < n →
      0 ≤ wrapMod x n ∧ wrapMod x n < n ∧
      wrapMod (x + n) n = wrapMod x n ∧ wrapMod (x - n) n = wrapMod x n) ∧
    (∀ s x y, getGridNumber s x y =
      (let globalIdx := wrapMod y s.globalMapHeight * s.globalMapWidth +
        wrapMod x s.globalMapWidth
       if validIdx s.globalGridNumbers globalIdx then
         lgetD s.globalGridNumbers globalIdx 0 else 0)) ∧
    (∀ s k, getGlobalIndexFromScreenIndex s k =
      wrapMod (s.scrollY + Int.tdiv k s.gridWidth) s.globalMapHeight * s.globalMapWidth +
      wrapMod (s.scrollX + Int.tmod k s.gridWidth) s.globalMapWidth) := by
  refine ⟨fun x n hn => ?_, fun s x y => rfl, fun s k => rfl⟩
  have hb := wrapMod_bounds x n hn
  refine ⟨hb.1, hb.2, ?_, ?_⟩
  · rw [wrapMod_eq_emod _ n hn, wrapMod_eq_emod x n hn]
    have h := Int.add_mul_emod_self_left x n 1
    rw [mul_one] at h
    exact h
  · rw [wrapMod_eq_emod _ n hn, wrapMod_eq_emod x n hn]
    have : x - n = x + n * (-1) := by ring
    rw [this, Int.add_mul_emod_self_left]

/-- Witness for C7 at x = -7, N = 5. -/
theorem c7_wrapping_invariant_witness :
    0 ≤ wrapMod (-7) 5 ∧ wrapMod (-7) 5 < 5 ∧
    wrapMod (-7 + 5) 5 = wrapMod (-7) 5 ∧ wrapMod (-7 - 5) 5 = wrapMod (-7) 5 :=
  c7_wrapping_invariant.1 (-7) 5 (by norm_num)

/-! ## A small concrete state for witnesses and counterexamples -/

/-- A 10 by 10 global grid state with all values 1, nothing scary, four
empty bars, and an inactive day. -/
def baseState : TState :=
  { gridWidth := 10
    gridHeight := 10
    globalMapWidth := 10
    globalMapHeight := 10
    globalGridNumbers := List.replicate 100 1
    scaryActive := List.replicate 100 false
    primeIndices := []
    progressBars := [0, 0, 0, 0]
    pendingChunkValue := 0
    bBarCoolingDown := List.replicate 4 false
    barCooldownRemaining := List.replicate 4 0
    barCooldownSeconds := 5 / 2
    filesPerDay := 2
    filesRefinedCount := 0
    bDayActive := false
    dayStartTime := 0
    scrollX := 0
    scrollY := 0
    scrollSensitivity := 1 / 2
    accumulatorX := 0
    accumulatorY := 0
    maxSensorDistance := 15 }

/-- A fixed oracle that always returns the lower bound of the requested
range; it trivially satisfies `RngOk`. -/
def loRng : Rng := ⟨0, fun _ lo _ => lo⟩

theorem loRng_ok : RngOk loRng.f := fun _ _ _ h => ⟨le_refl _, h⟩

theorem validIdx_eq_false {α : Type} (l : List α) (i : ℤ)
    (h : i < 0 ∨ (l.length : ℤ) ≤ i) : validIdx l i = false := by
  cases hv : validIdx l i
  · rfl
  · exact absurd ((validIdx_iff l i).mp hv) (by omega)

/-! ## C9: invalid inputs -/

/-- C9 (amended): an out-of-range bar index makes `isBarAvailable` /
`isBarFull` return false, `getBarCooldownRatio` return 0, and
`applChunkToBar` a strict no-op; an out-of-range wrapped grid index makes
`getGridNumber` return 0 and `isIndexScary` return false.  (The original
claim's further assertion — that a malformed selection list leaves all
state unchanged — is false: see the counterexample.) -/
theorem c9_error_handling :
    (∀ s i, (i < 0 ∨ (s.progressBars.length : ℤ) ≤ i) → isBarAvailable s i = false) ∧
    (∀ s i, (i < 0 ∨ (s.barCooldownRemaining.length : ℤ) ≤ i) →
      getBarCooldownRatio s i = 0) ∧
    (∀ s i, (i < 0 ∨ (s.progressBars.length : ℤ) ≤ i) → isBarFull s i = false) ∧
    (∀ now s i, (i < 0 ∨ (s.progressBars.length : ℤ) ≤ i) →
      applChunkToBar now i s = (s, [])) ∧
    (∀ s x y, validIdx s.globalGridNumbers
        (wrapMod y s.globalMapHeight * s.globalMapWidth + wrapMod x s.globalMapWidth)
        = false → getGridNumber s x y = 0) ∧
    (∀ s k, validIdx s.scaryActive (getGlobalIndexFromScreenIndex s k) = false →
      isIndexScary s k = false) := by
  refine ⟨fun s i h => ?_, fun s i h => ?_, fun s i h => ?_,
    fun now s i h => ?_, fun s x y h => ?_, fun s k h => ?_⟩
  · have hv := validIdx_eq_false s.progressBars i h
    unfold isBarAvailable
    rw [if_pos (Or.inr hv)]
  · have hv := validIdx_eq_false s.barCooldownRemaining i h
    unfold getBarCooldownRatio
    rw [if_pos (Or.inl hv)]
  · have hv := validIdx_eq_false s.progressBars i h
    unfold isBarFull
    rw [hv]
    rfl
  · have hv := validIdx_eq_false s.progressBars i h
    unfold applChunkToBar
    split_ifs with h1 h2
    · rfl
    · rfl
    · exact absurd (Or.inl hv) h2
  · simp [getGridNumber, h]
  · simp [isIndexScary, h]

/-- Witness for C9 at bar index 5 and an empty global grid. -/
theorem c9_error_handling_witness :
    isBarAvailable baseState 5 = false ∧
    getBarCooldownRatio baseState 5 = 0 ∧
    isBarFull baseState 5 = false ∧
    applChunkToBar 0 5 baseState = (baseState, []) ∧
    getGridNumber { baseState with globalGridNumbers := [] } 3 4 = 0 ∧
    isIndexScary { baseState with scaryActive := [] } 7 = false :=
  ⟨c9_error_handling.1 baseState 5 (by right; decide),
   c9_error_handling.2.1 baseState 5 (by right; decide),
   c9_error_handling.2.2.1 baseState 5 (by right; decide),
   c9_error_handling.2.2.2.1 0 baseState 5 (by right; decide),
   c9_error_handling.2.2.2.2.1 _ 3 4 (by decide),
   c9_error_handling.2.2.2.2.2 _ 7 (by decide)⟩

/-- C9 counterexample: `handleScaryDrop` with a malformed (empty) selection
does NOT leave the observable state unchanged — it overwrites a positive
pending chunk with 0. -/
theorem c9_counterexample :
    (handleScaryDrop 0 [] 0 { baseState with pendingChunkValue := 1 / 10 }
      loRng).1.pendingChunkValue = 0 ∧
    ({ baseState with pendingChunkValue := 1 / 10 } : TState).pendingChunkValue ≠ 0 := by
  constructor
  · rfl
  · show (1 / 10 : ℚ) ≠ 0
    norm_num

/-! ## C3: day completion after two files -/

/-- C3: with `filesPerDay = 2`, the first `onFileWorkComplete` resets the
four bars to 0, keeps the day flag, and fires file-completed(1,2) plus the
file-selection request; the second (from any state with one file refined)
clears the day flag, leaves the bars untouched, and fires
file-completed(2,2) plus day-complete with duration `now - dayStartTime`. -/
theorem c3_day_completion (s s' : TState) (t1 t2 : ℚ) :
    (s.filesPerDay = 2 → s.filesRefinedCount = 0 →
      (onFileWorkComplete t1 s).1.progressBars = List.replicate 4 0 ∧
      (onFileWorkComplete t1 s).1.bDayActive = s.bDayActive ∧
      (onFileWorkComplete t1 s).1.filesRefinedCount = 1 ∧
      (onFileWorkComplete t1 s).2 =
        [TEvent.onFileCompleted 1 2, TEvent.onProgressUpdated 0 0,
         TEvent.onProgressUpdated 1 0, TEvent.onProgressUpdated 2 0,
         TEvent.onProgressUpdated 3 0, TEvent.bpOnShowFileSelection]) ∧
    (s'.filesPerDay = 2 → s'.filesRefinedCount = 1 →
      (onFileWorkComplete t2 s').1.bDayActive = false ∧
      (onFileWorkComplete t2 s').1.progressBars = s'.progressBars ∧
      (onFileWorkComplete t2 s').2 =
        [TEvent.onFileCompleted 2 2, TEvent.bpOnDayComplete (t2 - s'.dayStartTime)]) := by
  constructor
  · intro h1 h2
    unfold onFileWorkComplete resetProgressBars
    rw [h1, h2]
    norm_num
  · intro h1 h2
    unfold onFileWorkComplete resetProgressBars
    rw [h1, h2]
    norm_num

/-- Witness for C3 from the base state. -/
theorem c3_day_completion_witness :
    ((onFileWorkComplete 0 baseState).1.progressBars = List.replicate 4 0 ∧
     (onFileWorkComplete 0 baseState).1.bDayActive = baseState.bDayActive ∧
     (onFileWorkComplete 0 baseState).1.filesRefinedCount = 1 ∧
     (onFileWorkComplete 0 baseState).2 =
       [TEvent.onFileCompleted 1 2, TEvent.onProgressUpdated 0 0,
        TEvent.onProgressUpdated 1 0, TEvent.onProgressUpdated 2 0,
        TEvent.onProgressUpdated 3 0, TEvent.bpOnShowFileSelection]) ∧
    ((onFileWorkComplete 7 { baseState with filesRefinedCount := 1 }).1.bDayActive = false ∧
     (onFileWorkComplete 7 { baseState with filesRefinedCount := 1 }).1.progressBars =
       ({ baseState with filesRefinedCount := 1 } : TState).progressBars ∧
     (onFileWorkComplete 7 { baseState with filesRefinedCount := 1 }).2 =
       [TEvent.onFileCompleted 2 2, TEvent.bpOnDayComplete
         (7 - ({ baseState with filesRefinedCount := 1 } : TState).dayStartTime)]) :=
  ⟨(c3_day_completion baseState { baseState with filesRefinedCount := 1 } 0 7).1
      rfl rfl,
   (c3_day_completion baseState { baseState with filesRefinedCount := 1 } 0 7).2
      rfl rfl⟩

/-! ## C2: the scary-drop bonus -/

theorem getGlobalIndex_bounds (s : TState) (k : ℤ)
    (hW : 0 < s.globalMapWidth) (hH : 0 < s.globalMapHeight) :
    0 ≤ getGlobalIndexFromScreenIndex s k ∧
    getGlobalIndexFromScreenIndex s k < s.globalMapWidth * s.globalMapHeight := by
  unfold getGlobalIndexFromScreenIndex
  have hx := wrapMod_bounds (s.scrollX + Int.tmod k s.gridWidth) s.globalMapWidth hW
  have hy := wrapMod_bounds (s.scrollY + Int.tdiv k s.gridWidth) s.globalMapHeight hH
  dsimp only
  constructor
  · exact add_nonneg (mul_nonneg hy.1 (le_of_lt hW)) hx.1
  · nlinarith [hy.2, hx.2, hy.1, hx.1]

theorem onFileWorkComplete_preserves (now : ℚ) (s : TState) :
    (onFileWorkComplete now s).1.globalGridNumbers = s.globalGridNumbers ∧
    (onFileWorkComplete now s).1.scaryActive = s.scaryActive ∧
    (onFileWorkComplete now s).1.scrollX = s.scrollX ∧
    (onFileWorkComplete now s).1.scrollY = s.scrollY ∧
    (onFileWorkComplete now s).1.gridWidth = s.gridWidth ∧
    (onFileWorkComplete now s).1.globalMapWidth = s.globalMapWidth ∧
    (onFileWorkComplete now s).1.globalMapHeight = s.globalMapHeight ∧
    (onFileWorkComplete now s).1.filesPerDay = s.filesPerDay := by
  unfold onFileWorkComplete resetProgressBars
  dsimp only
  split_ifs <;> exact ⟨rfl, rfl, rfl, rfl, rfl, rfl, rfl, rfl⟩

theorem applChunkToBar_preserves (now : ℚ) (i : ℤ) (s : TState) :
    (applChunkToBar now i s).1.globalGridNumbers = s.globalGridNumbers ∧
    (applChunkToBar now i s).1.scaryActive = s.scaryActive ∧
    (applChunkToBar now i s).1.scrollX = s.scrollX ∧
    (applChunkToBar now i s).1.scrollY = s.scrollY ∧
    (applChunkToBar now i s).1.gridWidth = s.gridWidth ∧
    (applChunkToBar now i s).1.globalMapWidth = s.globalMapWidth ∧
    (applChunkToBar now i s).1.globalMapHeight = s.globalMapHeight ∧
    (applChunkToBar now i s).1.filesPerDay = s.filesPerDay := by
  unfold applChunkToBar
  dsimp only
  split_ifs <;>
    first
      | exact ⟨rfl, rfl, rfl, rfl, rfl, rfl, rfl, rfl⟩
      | exact ⟨(onFileWorkComplete_preserves _ _).1,
          (onFileWorkComplete_preserves _ _).2.1,
          (onFileWorkComplete_preserves _ _).2.2.1,
          (onFileWorkComplete_preserves _ _).2.2.2.1,
          (onFileWorkComplete_preserves _ _).2.2.2.2.1,
          (onFileWorkComplete_preserves _ _).2.2.2.2.2.1,
          (onFileWorkComplete_preserves _ _).2.2.2.2.2.2.1,
          (onFileWorkComplete_preserves _ _).2.2.2.2.2.2.2⟩

/-- The screen-to-global conversion only reads the viewport width, the
scroll position and the global dimensions. -/
theorem getGlobalIndex_congr (s s' : TState) (k : ℤ)
    (h1 : s'.gridWidth = s.gridWidth) (h2 : s'.scrollX = s.scrollX)
    (h3 : s'.scrollY = s.scrollY) (h4 : s'.globalMapWidth = s.globalMapWidth)
    (h5 : s'.globalMapHeight = s.globalMapHeight) :
    getGlobalIndexFromScreenIndex s' k = getGlobalIndexFromScreenIndex s k := by
  unfold getGlobalIndexFromScreenIndex
  rw [h1, h2, h3, h4, h5]

/-- C2: a one-tile selection on a scary cell of value 4 contributes
`4 * 0.005 * 4 = 0.08`; the drop clears the cell's scary flag, respawns its
value inside [1, 9], and `isIndexScary` is false for that cell after the
full `handleScaryDrop`. -/
theorem c2_scary_drop_bonus (s : TState) (r : Rng) (k barIdx : ℤ) (now : ℚ)
    (hr : RngOk r.f)
    (hW : 0 < s.globalMapWidth) (hH : 0 < s.globalMapHeight)
    (hg : (s.globalGridNumbers.length : ℤ) = s.globalMapWidth * s.globalMapHeight)
    (hs : (s.scaryActive.length : ℤ) = s.globalMapWidth * s.globalMapHeight)
    (hval : lgetD s.globalGridNumbers (getGlobalIndexFromScreenIndex s k) 0 = 4)
    (hscary : lgetD s.scaryActive (getGlobalIndexFromScreenIndex s k) false = true) :
    (scaryDropLoop [k] s r).2.1 = 2 / 25 ∧
    lgetD (scaryDropLoop [k] s r).1.scaryActive
      (getGlobalIndexFromScreenIndex s k) false = false ∧
    1 ≤ lgetD (scaryDropLoop [k] s r).1.globalGridNumbers
      (getGlobalIndexFromScreenIndex s k) 0 ∧
    lgetD (scaryDropLoop [k] s r).1.globalGridNumbers
      (getGlobalIndexFromScreenIndex s k) 0 ≤ 9 ∧
    isIndexScary (handleScaryDrop now [k] barIdx s r).1 k = false := by
  have hb := getGlobalIndex_bounds s k hW hH
  have hvg : validIdx s.globalGridNumbers (getGlobalIndexFromScreenIndex s k) = true := by
    rw [validIdx_iff]
    omega
  have hvs : validIdx s.scaryActive (getGlobalIndexFromScreenIndex s k) = true := by
    rw [validIdx_iff]
    omega
  have hloop : scaryDropLoop [k] s r =
      ({ s with scaryActive := lset s.scaryActive (getGlobalIndexFromScreenIndex s k) false,
                globalGridNumbers := lset s.globalGridNumbers
                  (getGlobalIndexFromScreenIndex s k) (r.f r.idx 1 9) },
       ((4 : ℤ) : ℚ) * (5 / 1000) * 4 + 0, ⟨r.idx + 1, r.f⟩) := by
    simp only [scaryDropLoop, hvg, hvs, hval, hscary, randRange, if_true, Bool.and_self,
      Bool.true_and, if_pos]
  have hdraw := hr r.idx 1 9 (by norm_num)
  refine ⟨?_, ?_, ?_, ?_, ?_⟩
  · rw [hloop]
    norm_num
  · rw [hloop]
    exact lgetD_lset_self _ _ _ _ hb.1 (by omega)
  · rw [hloop]
    rw [lgetD_lset_self _ _ _ _ hb.1 (by omega)]
    exact hdraw.1
  · rw [hloop]
    rw [lgetD_lset_self _ _ _ _ hb.1 (by omega)]
    exact hdraw.2
  · have hpre := applChunkToBar_preserves now barIdx
      { (scaryDropLoop [k] s r).1 with pendingChunkValue := (scaryDropLoop [k] s r).2.1 }
    have hself : (handleScaryDrop now [k] barIdx s r).1 =
        (applChunkToBar now barIdx
          { (scaryDropLoop [k] s r).1 with
              pendingChunkValue := (scaryDropLoop [k] s r).2.1 }).1 := rfl
    have h1 : (applChunkToBar now barIdx
        { (scaryDropLoop [k] s r).1 with
            pendingChunkValue := (scaryDropLoop [k] s r).2.1 }).1.gridWidth = s.gridWidth := by
      rw [hpre.2.2.2.2.1, hloop]
    have h2 : (applChunkToBar now barIdx
        { (scaryDropLoop [k] s r).1 with
            pendingChunkValue := (scaryDropLoop [k] s r).2.1 }).1.scrollX = s.scrollX := by
      rw [hpre.2.2.1, hloop]
    have h3 : (applChunkToBar now barIdx
        { (scaryDropLoop [k] s r).1 with
            pendingChunkValue := (scaryDropLoop [k] s r).2.1 }).1.scrollY = s.scrollY := by
      rw [hpre.2.2.2.1, hloop]
    have h4 : (applChunkToBar now barIdx
        { (scaryDropLoop [k] s r).1 with
            pendingChunkValue := (scaryDropLoop [k] s r).2.1 }).1.globalMapWidth =
        s.globalMapWidth := by
      rw [hpre.2.2.2.2.2.1, hloop]
    have h5 : (applChunkToBar now barIdx
        { (scaryDropLoop [k] s r).1 with
            pendingChunkValue := (scaryDropLoop [k] s r).2.1 }).1.globalMapHeight =
        s.globalMapHeight := by
      rw [hpre.2.2.2.2.2.2.1, hloop]
    have hsc : (applChunkToBar now barIdx
        { (scaryDropLoop [k] s r).1 with
            pendingChunkValue := (scaryDropLoop [k] s r).2.1 }).1.scaryActive =
        lset s.scaryActive (getGlobalIndexFromScreenIndex s k) false := by
      rw [hpre.2.1, hloop]
    rw [hself]
    simp only [isIndexScary]
    rw [getGlobalIndex_congr s _ k h1 h2 h3 h4 h5, hsc]
    cases hv : validIdx (lset s.scaryActive (getGlobalIndexFromScreenIndex s k) false)
        (getGlobalIndexFromScreenIndex s k)
    · simp [hv]
    · have hval0 := lgetD_lset_self s.scaryActive (getGlobalIndexFromScreenIndex s k)
        false false hb.1 (by omega)
      simp [hv, hval0]

/-- A 2 by 2 global grid whose cell 0 holds a scary 4. -/
def dropState : TState :=
  { baseState with
      gridWidth := 2
      globalMapWidth := 2
      globalMapHeight := 2
      globalGridNumbers := [4, 1, 1, 1]
      scaryActive := [true, false, false, false] }

/-- Witness for C2 on `dropState` with a one-tile selection at screen index 0. -/
theorem c2_scary_drop_bonus_witness :
    (scaryDropLoop [0] dropState loRng).2.1 = 2 / 25 ∧
    lgetD (scaryDropLoop [0] dropState loRng).1.scaryActive
      (getGlobalIndexFromScreenIndex dropState 0) false = false ∧
    1 ≤ lgetD (scaryDropLoop [0] dropState loRng).1.globalGridNumbers
      (getGlobalIndexFromScreenIndex dropState 0) 0 ∧
    lgetD (scaryDropLoop [0] dropState loRng).1.globalGridNumbers
      (getGlobalIndexFromScreenIndex dropState 0) 0 ≤ 9 ∧
    isIndexScary (handleScaryDrop 0 [0] 0 dropState loRng).1 0 = false :=
  c2_scary_drop_bonus dropState loRng 0 0 0 loRng_ok (by decide) (by decide)
    (by decide) (by decide) (by decide) (by decide)

/-! ## C5: prime indices and dynamic scary activation -/

theorem lgetD_mem {α : Type} (l : List α) (i : ℤ) (d : α)
    (h0 : 0 ≤ i) (h1 : i < (l.length : ℤ)) : lgetD l i d ∈ l := by
  unfold lgetD
  rw [if_pos h0, List.getD_eq_getElem _ _ (by omega)]
  exact List.getElem_mem _

/-- C5 (amended): `generateGrid` never writes `PrimeIndices` (so after
generation it still holds whatever it held before — empty by default);
`highlightRandomPrime` is a no-op exactly when its candidate list (valid,
not-yet-scary entries of `PrimeIndices`) is empty, and otherwise activates
exactly one oracle-chosen member of that candidate list. -/
theorem c5_prime_activation :
    (∀ s r, (generateGrid s r).1.primeIndices = s.primeIndices) ∧
    (∀ s r, primeCandidates s = [] → highlightRandomPrime s r = (s, r)) ∧
    (∀ s r, RngOk r.f → primeCandidates s ≠ [] →
      ∃ c ∈ primeCandidates s,
        (highlightRandomPrime s r).1 =
          { s with scaryActive := lset s.scaryActive c true }) := by
  refine ⟨fun s r => rfl, fun s r h => ?_, fun s r hr hne => ?_⟩
  · unfold highlightRandomPrime
    dsimp only
    split_ifs with h1 h2
    · rfl
    · rfl
    · exact absurd (by rw [h]; rfl) h2
  · unfold highlightRandomPrime
    dsimp only
    split_ifs with h1 h2
    · exfalso
      apply hne
      have : s.primeIndices = [] := List.length_eq_zero.mp h1
      unfold primeCandidates
      rw [this]
      rfl
    · exact absurd (List.length_eq_zero.mp h2) hne
    · have hlen : 1 ≤ ((primeCandidates s).length : ℤ) := by
        have : (primeCandidates s).length ≠ 0 := fun hz =>
          hne (List.length_eq_zero.mp hz)
        omega
      have hdraw := hr r.idx 0 (((primeCandidates s).length : ℤ) - 1) (by omega)
      refine ⟨lgetD (primeCandidates s) (r.f r.idx 0 (((primeCandidates s).length : ℤ) - 1)) 0,
        lgetD_mem _ _ _ hdraw.1 (by omega), ?_⟩
      rfl

/-- Witness for C5: part 1 on the base state; part 2 on the base state
(empty candidates); part 3 on a state with one eligible prime index. -/
theorem c5_prime_activation_witness :
    (generateGrid baseState loRng).1.primeIndices = baseState.primeIndices ∧
    highlightRandomPrime baseState loRng = (baseState, loRng) ∧
    (∃ c ∈ primeCandidates { baseState with primeIndices := [3] },
      (highlightRandomPrime { baseState with primeIndices := [3] } loRng).1 =
        { { baseState with primeIndices := [3] } with
            scaryActive := lset ({ baseState with primeIndices := [3] } : TState).scaryActive
              c true }) :=
  ⟨c5_prime_activation.1 baseState loRng,
   c5_prime_activation.2.1 baseState loRng (by decide),
   c5_prime_activation.2.2 { baseState with primeIndices := [3] } loRng loRng_ok
     (by decide)⟩

/-- A 1 by 1 global grid state for the C5 counterexample. -/
def primeGenState : TState :=
  { baseState with globalMapWidth := 1, globalMapHeight := 1 }

/-- An oracle that answers 2 to every value draw (range [1,9]) and the
lower bound elsewhere. -/
def primeRng : Rng := ⟨0, fun _ lo hi => if hi = 9 then 2 else lo⟩

/-- C5 counterexample: after `generateGrid`, cell 0 holds the prime value 2
and is not scary, yet `PrimeIndices` is still empty and
`highlightRandomPrime` is a no-op — the claim's promised activation of a
prime-valued non-scary cell never happens, because generation does not
populate `PrimeIndices`. -/
theorem c5_counterexample :
    isPrime (lgetD (generateGrid primeGenState primeRng).1.globalGridNumbers 0 0) = true ∧
    lgetD (generateGrid primeGenState primeRng).1.scaryActive 0 false = false ∧
    (generateGrid primeGenState primeRng).1.primeIndices = [] ∧
    (highlightRandomPrime (generateGrid primeGenState primeRng).1
      (generateGrid primeGenState primeRng).2).1 =
      (generateGrid primeGenState primeRng).1 := by
  with_unfolding_all decide

/-! ## C4: scroll accumulation -/

/-- Run a sequence of trackball input events. -/
def runTrackball : List (ℚ × ℚ) → TState → TState
  | [], s => s
  | a :: rest, s => runTrackball rest (applyTrackballInput a.1 a.2 s).1

/-- The amount a sequence of input events adds to the x accumulator: each
event contributes its x axis value, sign-inverted and scaled by the
sensitivity. -/
def effX (sens : ℚ) (inputs : List (ℚ × ℚ)) : ℚ :=
  (inputs.map (fun p => p.1 * (-1) * sens)).sum

theorem effX_cons (sens : ℚ) (a : ℚ × ℚ) (rest : List (ℚ × ℚ)) :
    effX sens (a :: rest) = a.1 * (-1) * sens + effX sens rest := by
  simp [effX]

/-- Run invariant for the x axis: the final scroll position is the wrap of
the initial one shifted by some integer S, and S plus the final accumulator
accounts exactly for all accumulated input, the accumulator staying in
(-1, 1). -/
theorem runTrackball_invX (inputs : List (ℚ × ℚ)) (s : TState)
    (hW : 0 < s.globalMapWidth) (hx0 : 0 ≤ s.scrollX)
    (hx1 : s.scrollX < s.globalMapWidth)
    (hacc : -1 < s.accumulatorX ∧ s.accumulatorX < 1) :
    ∃ S : ℤ,
      (runTrackball inputs s).scrollX = wrapMod (s.scrollX + S) s.globalMapWidth ∧
      (runTrackball inputs s).accumulatorX =
        s.accumulatorX + effX s.scrollSensitivity inputs - (S : ℚ) ∧
      -1 < (runTrackball inputs s).accumulatorX ∧
      (runTrackball inputs s).accumulatorX < 1 ∧
      (runTrackball inputs s).globalMapWidth = s.globalMapWidth := by
  induction inputs generalizing s with
  | nil =>
      refine ⟨0, ?_, by simp [runTrackball, effX], hacc.1, hacc.2, rfl⟩
      show s.scrollX = wrapMod (s.scrollX + 0) s.globalMapWidth
      rw [add_zero, wrapMod_fixed _ _ hx0 hx1]
  | cons a rest ih =>
      have hs1W : (applyTrackballInput a.1 a.2 s).1.globalMapWidth = s.globalMapWidth := rfl
      have hs1sens : (applyTrackballInput a.1 a.2 s).1.scrollSensitivity =
        s.scrollSensitivity := rfl
      have hs1x : (applyTrackballInput a.1 a.2 s).1.scrollX =
          wrapMod (s.scrollX + truncQ (s.accumulatorX + a.1 * (-1) * s.scrollSensitivity))
            s.globalMapWidth := rfl
      have hs1a : (applyTrackballInput a.1 a.2 s).1.accumulatorX =
          (s.accumulatorX + a.1 * (-1) * s.scrollSensitivity) -
            (truncQ (s.accumulatorX + a.1 * (-1) * s.scrollSensitivity) : ℚ) := rfl
      have hb1 := wrapMod_bounds
        (s.scrollX + truncQ (s.accumulatorX + a.1 * (-1) * s.scrollSensitivity))
        s.globalMapWidth hW
      have hfr := truncQ_frac_bounds (s.accumulatorX + a.1 * (-1) * s.scrollSensitivity)
      obtain ⟨S, h1, h2, h3, h4, h5⟩ := ih (applyTrackballInput a.1 a.2 s).1
        (by rw [hs1W]; exact hW) (by rw [hs1x]; exact hb1.1)
        (by rw [hs1x, hs1W]; exact hb1.2) (by rw [hs1a]; exact hfr)
      refine ⟨truncQ (s.accumulatorX + a.1 * (-1) * s.scrollSensitivity) + S,
        ?_, ?_, h3, h4, ?_⟩
      · show (runTrackball rest (applyTrackballInput a.1 a.2 s).1).scrollX = _
        rw [h1, hs1x, hs1W, wrapMod_add_left _ _ _ hW, add_assoc]
      · show (runTrackball rest (applyTrackballInput a.1 a.2 s).1).accumulatorX = _
        rw [h2, hs1a, hs1sens, effX_cons]
        push_cast
        ring
      · show (runTrackball rest (applyTrackballInput a.1 a.2 s).1).globalMapWidth =
          s.globalMapWidth
        rw [h5, hs1W]

/-- C4: from a clean accumulator and an in-range scroll position, a
sequence of trackball inputs whose accumulated x deltas (sign-inverted and
scaled by the sensitivity, as `applyTrackballInput` accumulates them) sum
to exactly 1 produces exactly one discrete scroll step and leaves the
accumulator at exactly 0; a sequence whose accumulated deltas sum to 0
leaves the discrete position unchanged (and the accumulator at 0). -/
theorem c4_scroll_accumulation (s : TState) (inputs : List (ℚ × ℚ))
    (hW : 0 < s.globalMapWidth) (hx0 : 0 ≤ s.scrollX)
    (hx1 : s.scrollX < s.globalMapWidth) (hacc : s.accumulatorX = 0) :
    (effX s.scrollSensitivity inputs = 1 →
      (runTrackball inputs s).scrollX = wrapMod (s.scrollX + 1) s.globalMapWidth ∧
      (runTrackball inputs s).accumulatorX = 0) ∧
    (effX s.scrollSensitivity inputs = 0 →
      (runTrackball inputs s).scrollX = s.scrollX ∧
      (runTrackball inputs s).accumulatorX = 0) := by
  obtain ⟨S, h1, h2, h3, h4, h5⟩ := runTrackball_invX inputs s hW hx0 hx1
    (by rw [hacc]; norm_num)
  rw [hacc] at h2
  constructor
  · intro he
    rw [he] at h2
    have hS : S = 1 := by
      have hlt : -1 < 0 + 1 - (S : ℚ) := by rw [← h2]; exact h3
      have hgt : 0 + 1 - (S : ℚ) < 1 := by rw [← h2]; exact h4
      have hlo : (0 : ℚ) < (S : ℚ) := by linarith
      have hhi : (S : ℚ) < 2 := by linarith
      have hlo' : (0 : ℤ) < S := by exact_mod_cast hlo
      have hhi' : S < 2 := by exact_mod_cast hhi
      omega
    subst hS
    constructor
    · rw [h1]
    · rw [h2]
      norm_num
  · intro he
    rw [he] at h2
    have hS : S = 0 := by
      have hlt : -1 < 0 + 0 - (S : ℚ) := by rw [← h2]; exact h3
      have hgt : 0 + 0 - (S : ℚ) < 1 := by rw [← h2]; exact h4
      have hlo : (-1 : ℚ) < -(S : ℚ) := by linarith
      have hhi : -(S : ℚ) < 1 := by linarith
      have hlo' : (-1 : ℤ) < -S := by exact_mod_cast hlo
      have hhi' : -S < 1 := by exact_mod_cast hhi
      omega
    subst hS
    constructor
    · rw [h1]
      show wrapMod (s.scrollX + 0) s.globalMapWidth = s.scrollX
      rw [add_zero, wrapMod_fixed _ _ hx0 hx1]
    · rw [h2]
      norm_num

/-- Witness for C4 from the base state (sensitivity 1/2): two inputs of
x axis -1 accumulate to +1 (one step); inputs +2 then -2 accumulate to 0
(no movement). -/
theorem c4_scroll_accumulation_witness :
    ((runTrackball [(-1, 0), (-1, 0)] baseState).scrollX =
        wrapMod (baseState.scrollX + 1) baseState.globalMapWidth ∧
      (runTrackball [(-1, 0), (-1, 0)] baseState).accumulatorX = 0) ∧
    ((runTrackball [(2, 0), (-2, 0)] baseState).scrollX = baseState.scrollX ∧
      (runTrackball [(2, 0), (-2, 0)] baseState).accumulatorX = 0) :=
  ⟨(c4_scroll_accumulation baseState [(-1, 0), (-1, 0)] (by decide) (by decide)
      (by decide) (by with_unfolding_all decide)).1 (by with_unfolding_all decide),
   (c4_scroll_accumulation baseState [(2, 0), (-2, 0)] (by decide) (by decide)
      (by decide) (by with_unfolding_all decide)).2 (by with_unfolding_all decide)⟩

/-! ## C8 and C10: the proximity sensor -/

theorem sensorStep_fst_le (s : TState) (acc : ℚ × Bool) (p : ℤ × ℤ) :
    (sensorStep s acc p).1 ≤ acc.1 := by
  unfold sensorStep
  dsimp only
  split_ifs with h1 h2
  · exact le_of_lt h2
  · exact le_refl _
  · exact le_refl _

theorem sensorStep_fst_le_dist (s : TState) (acc : ℚ × Bool) (p : ℤ × ℤ)
    (hs : scaryAtRaw s p.1 p.2 = true) : (sensorStep s acc p).1 ≤ distSqTo s p := by
  unfold sensorStep
  dsimp only
  rw [hs, if_pos rfl]
  split_ifs with h2
  · exact le_refl _
  · exact le_of_not_lt h2

theorem sensorStep_fst_nonneg (s : TState) (acc : ℚ × Bool) (p : ℤ × ℤ)
    (h : 0 ≤ acc.1) : 0 ≤ (sensorStep s acc p).1 := by
  unfold sensorStep
  dsimp only
  split_ifs with h1 h2
  · unfold distSqTo
    exact add_nonneg (sq_nonneg _) (sq_nonneg _)
  · exact h
  · exact h

theorem foldl_sensorStep_fst_le (s : TState) (l : List (ℤ × ℤ)) (acc : ℚ × Bool) :
    (l.foldl (sensorStep s) acc).1 ≤ acc.1 := by
  induction l generalizing acc with
  | nil => exact le_refl _
  | cons p rest ih =>
      exact le_trans (ih (sensorStep s acc p)) (sensorStep_fst_le s acc p)

theorem foldl_sensorStep_le_of_mem (s : TState) (l : List (ℤ × ℤ)) (acc : ℚ × Bool)
    (p : ℤ × ℤ) (hp : p ∈ l) (hs : scaryAtRaw s p.1 p.2 = true) :
    (l.foldl (sensorStep s) acc).1 ≤ distSqTo s p := by
  induction l generalizing acc with
  | nil => cases hp
  | cons q rest ih =>
      rcases List.mem_cons.mp hp with h | h
      · subst h
        exact le_trans (foldl_sensorStep_fst_le s rest _)
          (sensorStep_fst_le_dist s acc p hs)
      · exact ih (sensorStep s acc q) h

theorem foldl_sensorStep_fst_nonneg (s : TState) (l : List (ℤ × ℤ)) (acc : ℚ × Bool)
    (h : 0 ≤ acc.1) : 0 ≤ (l.foldl (sensorStep s) acc).1 := by
  induction l generalizing acc with
  | nil => exact h
  | cons p rest ih =>
      exact ih (sensorStep s acc p) (sensorStep_fst_nonneg s acc p h)

theorem foldl_sensorStep_found_iff (s : TState) (l : List (ℤ × ℤ)) (acc : ℚ × Bool)
    (h : acc.2 = true ↔ acc.1 < 225) (hle : acc.1 ≤ 225) :
    ((l.foldl (sensorStep s) acc).2 = true ↔ (l.foldl (sensorStep s) acc).1 < 225) ∧
    (l.foldl (sensorStep s) acc).1 ≤ 225 := by
  induction l generalizing acc with
  | nil => exact ⟨h, hle⟩
  | cons p rest ih =>
      refine ih (sensorStep s acc p) ?_ ?_
      · unfold sensorStep
        dsimp only
        split_ifs with h1 h2
        · exact ⟨fun _ => lt_of_lt_of_le h2 hle, fun _ => rfl⟩
        · exact h
        · exact h
      · unfold sensorStep
        dsimp only
        split_ifs with h1 h2
        · exact le_of_lt (lt_of_lt_of_le h2 hle)
        · exact hle
        · exact hle

theorem foldl_sensorStep_none (s : TState) (l : List (ℤ × ℤ)) (acc : ℚ × Bool)
    (h : ∀ p ∈ l, scaryAtRaw s p.1 p.2 = false) :
    l.foldl (sensorStep s) acc = acc := by
  induction l generalizing acc with
  | nil => rfl
  | cons p rest ih =>
      have hstep : sensorStep s acc p = acc := by
        unfold sensorStep
        rw [h p (List.mem_cons_self p rest)]
        rfl
      show (rest.foldl (sensorStep s) (sensorStep s acc p)) = acc
      rw [hstep]
      exact ih acc (fun q hq => h q (List.mem_cons_of_mem p hq))

/-- C8: a scary tile lying exactly at the continuous viewport center (a
scanned coordinate equal to the center, distance 0) makes the sensor
return exactly 1; when no scary tile is reachable by the scan window (in
particular when every scary tile is farther than the detection distance
and outside the window), it returns exactly 0. -/
theorem c8_proximity_extremes :
    (∀ s (p : ℤ × ℤ), p ∈ scanCells s → ((p.1 : ℚ) = sensorCenterX s) →
      ((p.2 : ℚ) = sensorCenterY s) → scaryAtRaw s p.1 p.2 = true →
      getSensorProximityValue s = 1) ∧
    (∀ s, (∀ p ∈ scanCells s, scaryAtRaw s p.1 p.2 = false) →
      getSensorProximityValue s = 0) := by
  constructor
  · intro s p hp hpx hpy hs
    have hd : distSqTo s p = 0 := by
      unfold distSqTo
      rw [hpx, hpy]
      simp
    have hle0 : (sensorFold s).1 ≤ 0 := by
      rw [← hd]
      exact foldl_sensorStep_le_of_mem s (scanCells s) (225, false) p hp hs
    have hge0 : 0 ≤ (sensorFold s).1 :=
      foldl_sensorStep_fst_nonneg s (scanCells s) (225, false) (by norm_num)
    have hmd : (sensorFold s).1 = 0 := le_antisymm hle0 hge0
    have hfound : (sensorFold s).2 = true := by
      have hiff := foldl_sensorStep_found_iff s (scanCells s) (225, false)
        (by simp) (by norm_num)
      refine hiff.1.mpr ?_
      show (sensorFold s).1 < 225
      rw [hmd]
      norm_num
    unfold getSensorProximityValue
    rw [hfound, if_pos rfl, hmd]
    unfold clampR
    norm_num
  · intro s hnone
    have hfold : sensorFold s = (225, false) :=
      foldl_sensorStep_none s (scanCells s) (225, false) hnone
    unfold getSensorProximityValue
    rw [hfold]
    norm_num

/-- A state with a scary tile exactly at the continuous viewport center
(accumulators at 1/2, so the center (5, 5) is a grid point; global index
55 on the 10 by 10 map). -/
def sensorCenterState : TState :=
  { baseState with
      accumulatorX := 1 / 2
      accumulatorY := 1 / 2
      scaryActive := lset (List.replicate 100 false) 55 true }

theorem scaryAtRaw_empty (s : TState) (h : s.scaryActive = []) (x y : ℤ) :
    scaryAtRaw s x y = false := by
  unfold scaryAtRaw
  dsimp only
  rw [h]
  have hv : validIdx ([] : List Bool)
      (wrapMod y s.globalMapHeight * s.globalMapWidth + wrapMod x s.globalMapWidth) =
      false := by
    apply validIdx_eq_false
    simp
    omega
  rw [hv]
  rfl

/-- Witness for C8: proximity 1 with a scary tile at the exact center;
proximity 0 with no scary tiles at all. -/
theorem c8_proximity_extremes_witness :
    getSensorProximityValue sensorCenterState = 1 ∧
    getSensorProximityValue { baseState with scaryActive := [] } = 0 :=
  ⟨c8_proximity_extremes.1 sensorCenterState (5, 5)
      (by
        unfold scanCells
        refine List.mem_flatMap.mpr
          ⟨21, List.mem_range.mpr (show (21 : ℕ) < 43 by norm_num), ?_⟩
        refine List.mem_map.mpr
          ⟨21, List.mem_range.mpr (show (21 : ℕ) < 43 by norm_num), ?_⟩
        decide)
      (by with_unfolding_all decide) (by with_unfolding_all decide) (by decide),
   c8_proximity_extremes.2 { baseState with scaryActive := [] }
      (fun p _ => scaryAtRaw_empty _ rfl p.1 p.2)⟩

/-- C10: two states that agree on everything the sensor reads (grid values,
scary flags, scroll position, accumulators, map dimensions) but may differ
arbitrarily in `MaxSensorDistance` produce identical sensor results — the
sensor's threshold and normalization use the fixed internal distance 15 and
fixed scan radius 16, never the configurable field. -/
theorem c10_sensor_independence (s1 s2 : TState)
    (_hg : s1.globalGridNumbers = s2.globalGridNumbers)
    (hs : s1.scaryActive = s2.scaryActive)
    (hx : s1.scrollX = s2.scrollX) (hy : s1.scrollY = s2.scrollY)
    (hax : s1.accumulatorX = s2.accumulatorX)
    (hay : s1.accumulatorY = s2.accumulatorY)
    (hw : s1.globalMapWidth = s2.globalMapWidth)
    (hh : s1.globalMapHeight = s2.globalMapHeight) :
    sensorFold s1 = sensorFold s2 ∧
    getSensorProximityValue s1 = getSensorProximityValue s2 := by
  have hcells : scanCells s1 = scanCells s2 := by
    unfold scanCells
    rw [hx, hy]
  have hstep : sensorStep s1 = sensorStep s2 := by
    funext acc p
    unfold sensorStep scaryAtRaw distSqTo sensorCenterX sensorCenterY
    rw [hs, hx, hy, hax, hay, hw, hh]
  have hfold : sensorFold s1 = sensorFold s2 := by
    unfold sensorFold
    rw [hcells, hstep]
  refine ⟨hfold, ?_⟩
  unfold getSensorProximityValue
  rw [hfold]

/-- Witness for C10: the base state with `MaxSensorDistance` 15 versus 20. -/
theorem c10_sensor_independence_witness :
    sensorFold baseState = sensorFold { baseState with maxSensorDistance := 20 } ∧
    getSensorProximityValue baseState =
      getSensorProximityValue { baseState with maxSensorDistance := 20 } :=
  c10_sensor_independence baseState { baseState with maxSensorDistance := 20 }
    rfl rfl rfl rfl rfl rfl rfl rfl

/-! ## C1: file completion and the all-bars-full hook -/

/-- One scripted interaction: stage a chunk value and apply it to a bar
(as `HandleScaryDrop` stages `PendingChunkValue` before `ApplChunkToBar`). -/
def runChunkOps (now : ℚ) : List (ℚ × ℤ) → TState → TState × List TEvent
  | [], s => (s, [])
  | op :: rest, s =>
      let step := applChunkToBar now op.2 { s with pendingChunkValue := op.1 }
      let next := runChunkOps now rest step.1
      (next.1, step.2 ++ next.2)

/-- Is an event the file-completion broadcast? -/
def isFileCompletedEvent : TEvent → Bool
  | TEvent.onFileCompleted _ _ => true
  | _ => false

/-- Is an event the all-bars-full hook call? -/
def isAllBarsFullEvent : TEvent → Bool
  | TEvent.onAllBarsFull => true
  | _ => false

/-- Number of file-completion events in a trace. -/
def countFC (es : List TEvent) : ℕ := es.countP isFileCompletedEvent

/-- Number of all-bars-full hook calls in a trace. -/
def countABF (es : List TEvent) : ℕ := es.countP isAllBarsFullEvent

/-- The standing shape invariant on the bars: four of them, each in [0, 1]. -/
def barsOk (s : TState) : Prop :=
  s.progressBars.length = 4 ∧ ∀ b ∈ s.progressBars, 0 ≤ b ∧ b ≤ 1

theorem list4_of_length {α : Type} (l : List α) (h : l.length = 4) :
    ∃ a b c d, l = [a, b, c, d] := by
  match l, h with
  | [a, b, c, d], _ => exact ⟨a, b, c, d, rfl⟩

/-- With four bars each in [0, 1], the all-bars-full test holds exactly
when the clamped master progress reaches 1. -/
theorem allBarsFull_iff_master (s : TState) (hb : barsOk s) :
    allBarsFull s = true ↔ 1 ≤ getMasterProgress s := by
  obtain ⟨a, b, c, d, hl⟩ := list4_of_length s.progressBars hb.1
  have hmem : ∀ x ∈ s.progressBars, 0 ≤ x ∧ x ≤ 1 := hb.2
  rw [hl] at hmem
  have ha := hmem a (by simp)
  have hbb := hmem b (by simp)
  have hc := hmem c (by simp)
  have hd := hmem d (by simp)
  unfold allBarsFull getMasterProgress clampQ
  rw [hl]
  simp only [List.all_cons, List.all_nil, List.sum_cons, List.sum_nil,
    Bool.and_true, Bool.and_eq_true, Bool.not_eq_true', decide_eq_false_iff_not,
    not_lt]
  constructor
  · rintro ⟨h1, h2, h3, h4⟩
    have : a = 1 := le_antisymm ha.2 h1
    have : b = 1 := le_antisymm hbb.2 h2
    have : c = 1 := le_antisymm hc.2 h3
    have : d = 1 := le_antisymm hd.2 h4
    subst_vars
    norm_num
  · intro h
    have hsum : (4 : ℚ) ≤ a + b + c + d := by
      by_contra hlt
      push_neg at hlt
      have hq : (a + b + c + d + 0) / 4 < 1 := by linarith
      have : min (max ((a + (b + (c + (d + 0)))) / 4) 0) 1 < 1 := by
        refine lt_of_le_of_lt (min_le_left _ _) ?_
        have hnn : (0 : ℚ) ≤ (a + (b + (c + (d + 0)))) / 4 := by
          have := ha.1
          have := hbb.1
          have := hc.1
          have := hd.1
          positivity
        rw [max_eq_left hnn]
        linarith
      linarith [h, this]
    refine ⟨by linarith [hbb.2, hc.2, hd.2], by linarith [ha.2, hc.2, hd.2],
      by linarith [ha.2, hbb.2, hd.2], by linarith [ha.2, hbb.2, hc.2]⟩

theorem countFC_append (l1 l2 : List TEvent) :
    countFC (l1 ++ l2) = countFC l1 + countFC l2 :=
  List.countP_append _ l1 l2

theorem countABF_append (l1 l2 : List TEvent) :
    countABF (l1 ++ l2) = countABF l1 + countABF l2 :=
  List.countP_append _ l1 l2

theorem barsOk_lset (l : List ℚ) (i : ℤ) (v : ℚ) (h4 : l.length = 4)
    (hm : ∀ b ∈ l, 0 ≤ b ∧ b ≤ 1) (hv : 0 ≤ v ∧ v ≤ 1) :
    (lset l i v).length = 4 ∧ ∀ b ∈ lset l i v, 0 ≤ b ∧ b ≤ 1 := by
  refine ⟨by rw [length_lset]; exact h4, fun b hbm => ?_⟩
  unfold lset at hbm
  split at hbm
  · rcases List.mem_or_eq_of_mem_set hbm with h | h
    · exact hm b h
    · exact h ▸ hv
  · exact hm b hbm

/-- Event and state bookkeeping of `onFileWorkComplete`: exactly one
file-completed event, no all-bars-full hook, the counter bumped, and the
day flag / bars depending on whether the day's target is reached. -/
theorem onFileWorkComplete_events (now : ℚ) (s : TState) :
    countFC (onFileWorkComplete now s).2 = 1 ∧
    countABF (onFileWorkComplete now s).2 = 0 ∧
    (onFileWorkComplete now s).1.filesPerDay = s.filesPerDay ∧
    (onFileWorkComplete now s).1.filesRefinedCount = s.filesRefinedCount + 1 ∧
    (onFileWorkComplete now s).1.bDayActive =
      (if s.filesPerDay ≤ s.filesRefinedCount + 1 then false else s.bDayActive) ∧
    (onFileWorkComplete now s).1.progressBars =
      (if s.filesPerDay ≤ s.filesRefinedCount + 1 then s.progressBars
       else List.replicate 4 0) := by
  unfold onFileWorkComplete resetProgressBars
  dsimp only
  split_ifs with hc
  · refine ⟨?_, ?_, rfl, rfl, rfl, rfl⟩ <;>
      simp [countFC, countABF, List.countP_cons, isFileCompletedEvent, isAllBarsFullEvent]
  · refine ⟨?_, ?_, rfl, rfl, rfl, rfl⟩ <;>
      simp [countFC, countABF, List.countP_cons, isFileCompletedEvent, isAllBarsFullEvent]

/-- `allBarsFull` on four zeroed bars is false. -/
theorem allBarsFull_replicate0 :
    (List.replicate 4 (0 : ℚ)).all (fun bar => !(decide (bar < 1))) = false := by
  with_unfolding_all decide

/-- Per-call analysis, no-completion case: if a call to `applChunkToBar`
emits no file-completed event, it emits no all-bars-full hook either, and
preserves the bars invariant, the day flag, and the file counters. -/
theorem applChunkToBar_noFC (now : ℚ) (i : ℤ) (s : TState) (hb : barsOk s)
    (h0 : countFC (applChunkToBar now i s).2 = 0) :
    barsOk (applChunkToBar now i s).1 ∧
    (applChunkToBar now i s).1.bDayActive = s.bDayActive ∧
    (applChunkToBar now i s).1.filesRefinedCount = s.filesRefinedCount ∧
    (applChunkToBar now i s).1.filesPerDay = s.filesPerDay ∧
    countABF (applChunkToBar now i s).2 = 0 := by
  have hclamp := clampQ_mem (lgetD s.progressBars i 0 + s.pendingChunkValue * (3 / 2)) 0 1
    (by norm_num)
  have hbars1 := barsOk_lset s.progressBars i
    (clampQ (lgetD s.progressBars i 0 + s.pendingChunkValue * (3 / 2)) 0 1)
    hb.1 hb.2 hclamp
  unfold applChunkToBar at h0 ⊢
  dsimp only at h0 ⊢
  split_ifs at h0 ⊢ with h1 h2 h3 h4 h5
  · exact ⟨hb, rfl, rfl, rfl, rfl⟩
  · exact ⟨hb, rfl, rfl, rfl, rfl⟩
  · exfalso
    dsimp only at h0
    have hev := (onFileWorkComplete_events now
      { s with progressBars := lset s.progressBars i (clampQ (lgetD s.progressBars i 0 + s.pendingChunkValue * (3 / 2)) 0 1), pendingChunkValue := 0 }).1
    rw [countFC_append, countFC_append, hev] at h0
    omega
  · exfalso
    dsimp only at h0
    have hev := (onFileWorkComplete_events now
      { s with progressBars := lset s.progressBars i (clampQ (lgetD s.progressBars i 0 + s.pendingChunkValue * (3 / 2)) 0 1), pendingChunkValue := 0 }).1
    rw [countFC_append, hev] at h0
    omega
  · exfalso
    apply h3
    exact (allBarsFull_iff_master
      { s with progressBars := lset s.progressBars i (clampQ (lgetD s.progressBars i 0 + s.pendingChunkValue * (3 / 2)) 0 1), pendingChunkValue := 0 } hbars1).mp h5
  · refine ⟨hbars1, rfl, rfl, rfl, ?_⟩
    simp [countABF, List.countP_cons, isAllBarsFullEvent]

/-- Per-call analysis, completion case: a call to `applChunkToBar` that
emits a file-completed event happened during an active day, emits exactly
one, and emits the all-bars-full hook exactly when this file completion
also completes the day (otherwise the handler has already reset the bars
when the hook condition is tested). -/
theorem applChunkToBar_FC (now : ℚ) (i : ℤ) (s : TState) (hb : barsOk s)
    (h0 : 1 ≤ countFC (applChunkToBar now i s).2) :
    s.bDayActive = true ∧
    countFC (applChunkToBar now i s).2 = 1 ∧
    (s.filesPerDay ≤ s.filesRefinedCount + 1 →
      countABF (applChunkToBar now i s).2 = 1) ∧
    (¬ s.filesPerDay ≤ s.filesRefinedCount + 1 →
      countABF (applChunkToBar now i s).2 = 0) := by
  have hclamp := clampQ_mem (lgetD s.progressBars i 0 + s.pendingChunkValue * (3 / 2)) 0 1
    (by norm_num)
  have hbars1 := barsOk_lset s.progressBars i
    (clampQ (lgetD s.progressBars i 0 + s.pendingChunkValue * (3 / 2)) 0 1)
    hb.1 hb.2 hclamp
  unfold applChunkToBar at h0 ⊢
  dsimp only at h0 ⊢
  split_ifs at h0 ⊢ with h1 h2 h3 h4 h5
  · exfalso
    simp [countFC, List.countP_nil] at h0
  · exfalso
    simp [countFC, List.countP_nil] at h0
  · -- completion, hook fired
    dsimp only at h0 ⊢
    have hday : s.bDayActive = true := by
      rcases not_or.mp h1 with ⟨hd, _⟩
      cases hB : s.bDayActive
      · exact absurd hB hd
      · rfl
    have hev := onFileWorkComplete_events now
      { s with progressBars := lset s.progressBars i (clampQ (lgetD s.progressBars i 0 + s.pendingChunkValue * (3 / 2)) 0 1), pendingChunkValue := 0 }
    have hcond : s.filesPerDay ≤ s.filesRefinedCount + 1 := by
      by_contra hcond
      have hbars' := hev.2.2.2.2.2
      rw [if_neg hcond] at hbars'
      have hfalse : allBarsFull (onFileWorkComplete now
          { s with progressBars := lset s.progressBars i (clampQ (lgetD s.progressBars i 0 + s.pendingChunkValue * (3 / 2)) 0 1), pendingChunkValue := 0 }).1 = false := by
        unfold allBarsFull
        rw [hbars']
        exact allBarsFull_replicate0
      rw [hfalse] at h4
      cases h4
    refine ⟨hday, ?_, fun _ => ?_, fun hc => absurd hcond hc⟩
    · rw [countFC_append, countFC_append, hev.1]
      simp [countFC, List.countP_cons, List.countP_nil, isFileCompletedEvent]
    · rw [countABF_append, countABF_append, hev.2.1]
      simp [countABF, List.countP_cons, List.countP_nil, isAllBarsFullEvent]
  · -- completion, hook not fired
    dsimp only at h0 ⊢
    have hday : s.bDayActive = true := by
      rcases not_or.mp h1 with ⟨hd, _⟩
      cases hB : s.bDayActive
      · exact absurd hB hd
      · rfl
    have hev := onFileWorkComplete_events now
      { s with progressBars := lset s.progressBars i (clampQ (lgetD s.progressBars i 0 + s.pendingChunkValue * (3 / 2)) 0 1), pendingChunkValue := 0 }
    have hcond : ¬ s.filesPerDay ≤ s.filesRefinedCount + 1 := by
      intro hcond
      have hbars' := hev.2.2.2.2.2
      rw [if_pos hcond] at hbars'
      have hfull : allBarsFull (onFileWorkComplete now
          { s with progressBars := lset s.progressBars i (clampQ (lgetD s.progressBars i 0 + s.pendingChunkValue * (3 / 2)) 0 1), pendingChunkValue := 0 }).1 = true := by
        unfold allBarsFull
        rw [hbars']
        exact (allBarsFull_iff_master
          { s with progressBars := lset s.progressBars i (clampQ (lgetD s.progressBars i 0 + s.pendingChunkValue * (3 / 2)) 0 1), pendingChunkValue := 0 } hbars1).mpr h3
      exact h4 hfull
    refine ⟨hday, ?_, fun hc => absurd hc hcond, fun _ => ?_⟩
    · rw [countFC_append, hev.1]
      simp [countFC, List.countP_cons, List.countP_nil, isFileCompletedEvent]
    · rw [countABF_append, hev.2.1]
      simp [countABF, List.countP_cons, List.countP_nil, isAllBarsFullEvent]
  · exfalso
    dsimp only at h0
    rw [countFC_append] at h0
    simp [countFC, List.countP_cons, List.countP_nil, isFileCompletedEvent] at h0
  · exfalso
    dsimp only at h0
    simp [countFC, List.countP_cons, List.countP_nil, isFileCompletedEvent] at h0

theorem runChunkOps_append (now : ℚ) (l1 l2 : List (ℚ × ℤ)) (s : TState) :
    runChunkOps now (l1 ++ l2) s =
      ((runChunkOps now l2 (runChunkOps now l1 s).1).1,
       (runChunkOps now l1 s).2 ++ (runChunkOps now l2 (runChunkOps now l1 s).1).2) := by
  induction l1 generalizing s with
  | nil => simp [runChunkOps]
  | cons op rest ih =>
      show runChunkOps now (op :: (rest ++ l2)) s = _
      dsimp only [runChunkOps]
      rw [ih]
      simp [List.append_assoc]

/-- Chaining the no-completion analysis over a whole run. -/
theorem runChunkOps_noFC (now : ℚ) (l : List (ℚ × ℤ)) (s : TState) (hb : barsOk s)
    (h0 : countFC (runChunkOps now l s).2 = 0) :
    barsOk (runChunkOps now l s).1 ∧
    (runChunkOps now l s).1.bDayActive = s.bDayActive ∧
    (runChunkOps now l s).1.filesRefinedCount = s.filesRefinedCount ∧
    (runChunkOps now l s).1.filesPerDay = s.filesPerDay ∧
    countABF (runChunkOps now l s).2 = 0 := by
  induction l generalizing s with
  | nil => exact ⟨hb, rfl, rfl, rfl, rfl⟩
  | cons op rest ih =>
      have hbs' : barsOk { s with pendingChunkValue := op.1 } := hb
      dsimp only [runChunkOps] at h0 ⊢
      rw [countFC_append] at h0
      have hstep0 : countFC
          (applChunkToBar now op.2 { s with pendingChunkValue := op.1 }).2 = 0 := by
        omega
      have hrest0 : countFC (runChunkOps now rest
          (applChunkToBar now op.2 { s with pendingChunkValue := op.1 }).1).2 = 0 := by
        omega
      have hstep := applChunkToBar_noFC now op.2 { s with pendingChunkValue := op.1 }
        hbs' hstep0
      have hrec := ih _ hstep.1 hrest0
      rw [countABF_append]
      refine ⟨hrec.1, ?_, ?_, ?_, ?_⟩
      · rw [hrec.2.1, hstep.2.1]
      · rw [hrec.2.2.1, hstep.2.2.1]
      · rw [hrec.2.2.2.1, hstep.2.2.2.1]
      · rw [hstep.2.2.2.2, hrec.2.2.2.2]

/-- C1 (amended): during an active day, over any sequence of staged-chunk
`applChunkToBar` calls in which no file completion occurs before the final
call and the final call completes the file (the mean of the four bars
reaches 1 there), exactly one file-completion event is emitted in the whole
run; the all-bars-full hook fires exactly once when that completion also
completes the day (bars are then not reset), and never fires when more
files remain (the completion handler resets the bars before the hook's
condition is tested). -/
theorem c1_completion_and_allbars (now : ℚ) (ops : List (ℚ × ℤ)) (s : TState)
    (hb : barsOk s) (hday : s.bDayActive = true)
    (hpre : countFC (runChunkOps now ops.dropLast s).2 = 0)
    (hcomp : 1 ≤ countFC (runChunkOps now ops s).2) :
    countFC (runChunkOps now ops s).2 = 1 ∧
    countABF (runChunkOps now ops s).2 =
      (if s.filesPerDay ≤ s.filesRefinedCount + 1 then 1 else 0) := by
  rcases List.eq_nil_or_concat ops with hnil | ⟨l, op, hops⟩
  · exfalso
    subst hnil
    simp [runChunkOps, countFC, List.countP_nil] at hcomp
  · rw [List.concat_eq_append] at hops
    subst hops
    have hd : (l ++ [op]).dropLast = l := by
      simp
    rw [hd] at hpre
    have hchain := runChunkOps_noFC now l s hb hpre
    rw [runChunkOps_append] at hcomp ⊢
    dsimp only at hcomp ⊢
    rw [countFC_append] at hcomp
    rw [countFC_append, countABF_append, hpre, hchain.2.2.2.2]
    have hlast2 : (runChunkOps now [op] (runChunkOps now l s).1).2 =
        (applChunkToBar now op.2
          { (runChunkOps now l s).1 with pendingChunkValue := op.1 }).2 ++ [] := rfl
    rw [hlast2, List.append_nil] at hcomp ⊢
    have hbs1 : barsOk { (runChunkOps now l s).1 with pendingChunkValue := op.1 } :=
      hchain.1
    have hstep := applChunkToBar_FC now op.2
      { (runChunkOps now l s).1 with pendingChunkValue := op.1 } hbs1 (by omega)
    refine ⟨by rw [hstep.2.1], ?_⟩
    by_cases hcond : s.filesPerDay ≤ s.filesRefinedCount + 1
    · rw [if_pos hcond]
      have hX : (runChunkOps now l s).1.filesPerDay ≤
          (runChunkOps now l s).1.filesRefinedCount + 1 := by
        rw [hchain.2.2.2.1, hchain.2.2.1]
        exact hcond
      rw [hstep.2.2.1 hX]
    · rw [if_neg hcond]
      have hX : ¬ (runChunkOps now l s).1.filesPerDay ≤
          (runChunkOps now l s).1.filesRefinedCount + 1 := by
        rw [hchain.2.2.2.1, hchain.2.2.1]
        exact hcond
      rw [hstep.2.2.2 hX]

/-- The base state with an active day (filesPerDay 2, none refined yet). -/
def dayState : TState := { baseState with bDayActive := true }

/-- An active day needing only one file. -/
def shortDayState : TState := { baseState with bDayActive := true, filesPerDay := 1 }

/-- C1 counterexample: with two files per day and none refined, four chunk
applications of 2/3 (times the 1.5 multiplier = 1.0 per bar) bring all four
bars to exactly 1.0 — exactly one file-completion event fires, but the
all-bars-full hook fires ZERO times, not once as the claim states: the
completion handler resets the bars before `AllBarsFull()` is tested. -/
theorem c1_counterexample :
    countFC (runChunkOps 0 [(2/3, 0), (2/3, 1), (2/3, 2), (2/3, 3)] dayState).2 = 1 ∧
    countABF (runChunkOps 0 [(2/3, 0), (2/3, 1), (2/3, 2), (2/3, 3)] dayState).2 = 0 := by
  with_unfolding_all decide

/-- Witness for C1 (amended) in the day-final case: with one file per day,
the same four applications produce one completion and one hook call. -/
theorem c1_completion_and_allbars_witness :
    countFC (runChunkOps 0 [(2/3, 0), (2/3, 1), (2/3, 2), (2/3, 3)] shortDayState).2 = 1 ∧
    countABF (runChunkOps 0 [(2/3, 0), (2/3, 1), (2/3, 2), (2/3, 3)] shortDayState).2 =
      (if shortDayState.filesPerDay ≤ shortDayState.filesRefinedCount + 1 then 1
       else 0) :=
  c1_completion_and_allbars 0 [(2/3, 0), (2/3, 1), (2/3, 2), (2/3, 3)] shortDayState
    (by unfold barsOk; with_unfolding_all decide) rfl (by with_unfolding_all decide)
    (by with_unfolding_all decide)

/-! ## C6: the generation invariant -/

/-- Number of set flags. -/
def countTrue (l : List Bool) : ℕ := l.countP (fun b => b)

theorem fillRandom_length (n : ℕ) (r : Rng) : (fillRandom n r).1.length = n := by
  induction n generalizing r with
  | zero => rfl
  | succ m ih =>
      show ((fillRandom m (randRange 1 9 r).2).1.length + 1) = m + 1
      rw [ih]

theorem fillRandom_f (n : ℕ) (r : Rng) : (fillRandom n r).2.f = r.f := by
  induction n generalizing r with
  | zero => rfl
  | succ m ih => exact ih (randRange 1 9 r).2

theorem fillRandom_mem (n : ℕ) (r : Rng) (hr : RngOk r.f) :
    ∀ v ∈ (fillRandom n r).1, 1 ≤ v ∧ v ≤ 9 := by
  induction n generalizing r with
  | zero => intro v hv; cases hv
  | succ m ih =>
      intro v hv
      rcases List.mem_cons.mp hv with h | h
      · subst h
        exact hr r.idx 1 9 (by norm_num)
      · exact ih (randRange 1 9 r).2 hr v h

theorem countTrue_set_true (l : List Bool) (n : ℕ) (hn : n < l.length)
    (hf : l.getD n false = false) :
    countTrue (l.set n true) = countTrue l + 1 := by
  induction l generalizing n with
  | nil => simp at hn
  | cons b t ih =>
      cases n with
      | zero =>
          have hb : b = false := hf
          subst hb
          simp [countTrue, List.countP_cons]
      | succ m =>
          have ht := ih m (by simpa using hn) hf
          simp only [List.set, countTrue, List.countP_cons]
          unfold countTrue at ht
          omega

theorem countTrue_lset_true (l : List Bool) (i : ℤ) (h0 : 0 ≤ i)
    (h1 : i < (l.length : ℤ)) (hf : lgetD l i false = false) :
    countTrue (lset l i true) = countTrue l + 1 := by
  unfold lset
  rw [if_pos h0]
  unfold lgetD at hf
  rw [if_pos h0] at hf
  exact countTrue_set_true l i.toNat (by omega) hf

theorem lgetD_lset_true_cases (l : List Bool) (i j : ℤ)
    (h : lgetD (lset l i true) j false = true) :
    lgetD l j false = true ∨ j = i := by
  by_cases hij : i = j
  · exact Or.inr hij.symm
  · rw [lgetD_lset_ne l i j true false hij] at h
    exact Or.inl h

/-- The iteration starts of the sector loop when the limit is a positive
multiple of 50. -/
theorem sectorStarts_mult (a : ℕ) :
    sectorStarts (50 * ((a : ℤ) + 1)) =
      (List.range (a + 1)).map (fun (j : ℕ) => (50 : ℤ) * j) := by
  unfold sectorStarts
  have hcount : ((50 * ((a : ℤ) + 1) + 49).toNat) / 50 = a + 1 := by omega
  rw [hcount]

/-- The zone of possible scary positions of a sector with origin `(y, x)`:
all indices at interior offsets 5..45 in both coordinates. -/
def inZone (w : ℤ) (p : ℤ × ℤ) (i : ℤ) : Prop :=
  ∃ dy dx : ℤ, 5 ≤ dy ∧ dy ≤ 45 ∧ 5 ≤ dx ∧ dx ≤ 45 ∧ i = (p.1 + dy) * w + (p.2 + dx)

/-- Two interior positions of two well-formed sectors coincide only when
the sectors coincide. -/
theorem sector_idx_unique (w : ℤ) (hw : 0 < w) (p q : ℤ × ℤ)
    (hp : 50 ∣ p.1 ∧ 50 ∣ p.2 ∧ 0 ≤ p.2 ∧ p.2 + 50 ≤ w)
    (hq : 50 ∣ q.1 ∧ 50 ∣ q.2 ∧ 0 ≤ q.2 ∧ q.2 + 50 ≤ w)
    (i : ℤ) (hpi : inZone w p i) (hqi : inZone w q i) : p = q := by
  obtain ⟨dy, dx, hdy1, hdy2, hdx1, hdx2, hi⟩ := hpi
  obtain ⟨ey, ex, hey1, hey2, hex1, hex2, hi'⟩ := hqi
  have hc1 : 0 ≤ p.2 + dx ∧ p.2 + dx < w := by omega
  have hc2 : 0 ≤ q.2 + ex ∧ q.2 + ex < w := by omega
  have hrow1 : ((p.2 + dx) + (p.1 + dy) * w) / w = p.1 + dy := by
    rw [Int.add_mul_ediv_right _ _ (ne_of_gt hw),
      Int.ediv_eq_zero_of_lt hc1.1 hc1.2]
    ring
  have hrow2 : ((q.2 + ex) + (q.1 + ey) * w) / w = q.1 + ey := by
    rw [Int.add_mul_ediv_right _ _ (ne_of_gt hw),
      Int.ediv_eq_zero_of_lt hc2.1 hc2.2]
    ring
  have heq : (p.2 + dx) + (p.1 + dy) * w = (q.2 + ex) + (q.1 + ey) * w := by
    linarith [hi, hi']
  have hrows : p.1 + dy = q.1 + ey := by
    rw [← hrow1, ← hrow2, heq]
  have hcols : p.2 + dx = q.2 + ex := by
    rw [hrows] at heq
    linarith [heq]
  have hy : p.1 = q.1 := by
    rcases hp.1 with ⟨ky, hky⟩
    rcases hq.1 with ⟨ly, hly⟩
    omega
  have hx : p.2 = q.2 := by
    rcases hp.2.1 with ⟨kx, hkx⟩
    rcases hq.2.1 with ⟨lx, hlx⟩
    omega
  exact Prod.ext hy hx

/-- Shape of a sector origin list entry. -/
def SectorForm (w h : ℤ) (yx : ℤ × ℤ) : Prop :=
  50 ∣ yx.1 ∧ 50 ∣ yx.2 ∧ 0 ≤ yx.1 ∧ yx.1 + 50 ≤ h ∧ 0 ≤ yx.2 ∧ yx.2 + 50 ≤ w

/-- A well-formed sector's zone stays inside the grid. -/
theorem inZone_valid (w h : ℤ) (hw : 0 < w) (yx : ℤ × ℤ)
    (hf : SectorForm w h yx) (i : ℤ) (hz : inZone w yx i) :
    0 ≤ i ∧ i < w * h := by
  obtain ⟨dy, dx, hdy1, hdy2, hdx1, hdx2, hi⟩ := hz
  have hrow : 0 ≤ yx.1 + dy ∧ yx.1 + dy ≤ h - 5 := by
    rcases hf with ⟨_, _, h1, h2, _, _⟩
    omega
  have hcol : 0 ≤ yx.2 + dx ∧ yx.2 + dx < w := by
    rcases hf with ⟨_, _, _, _, h1, h2⟩
    omega
  subst hi
  constructor
  · exact add_nonneg (mul_nonneg hrow.1 (le_of_lt hw)) hcol.1
  · nlinarith [hrow.2, hcol.2, hrow.1, hcol.1]

/-- The core induction for scary spawning: over a list of well-formed,
distinct sector origins whose zones are still clear, each sector sets
exactly one fresh flag inside its own zone. -/
theorem spawnScary_spec (w h : ℤ) (hw : 0 < w)
    (pairs : List (ℤ × ℤ)) (flags : List Bool) (r : Rng) (hr : RngOk r.f)
    (hlen : (flags.length : ℤ) = w * h)
    (hform : ∀ yx ∈ pairs, SectorForm w h yx)
    (hnodup : pairs.Nodup)
    (hclear : ∀ yx ∈ pairs, ∀ i, inZone w yx i → lgetD flags i false = false) :
    (spawnScary pairs flags w r).1.length = flags.length ∧
    countTrue (spawnScary pairs flags w r).1 = countTrue flags + pairs.length ∧
    (∀ i, lgetD (spawnScary pairs flags w r).1 i false = true →
      lgetD flags i false = true ∨ ∃ yx ∈ pairs, inZone w yx i) := by
  induction pairs generalizing flags r with
  | nil => exact ⟨rfl, rfl, fun i hi => Or.inl hi⟩
  | cons p rest ih =>
      have hdx := hr r.idx 5 45 (by norm_num)
      have hdy := hr (r.idx + 1) 5 45 (by norm_num)
      have hzone : inZone w p ((p.1 + r.f (r.idx + 1) 5 45) * w +
          (p.2 + r.f r.idx 5 45)) :=
        ⟨r.f (r.idx + 1) 5 45, r.f r.idx 5 45,
          hdy.1, hdy.2, hdx.1, hdx.2, rfl⟩
      have hvalid := inZone_valid w h hw p (hform p (List.mem_cons_self p rest)) _ hzone
      have hvb : validIdx flags ((p.1 + r.f (r.idx + 1) 5 45) * w +
          (p.2 + r.f r.idx 5 45)) = true := by
        rw [validIdx_iff]
        omega
      have hfresh : lgetD flags ((p.1 + r.f (r.idx + 1) 5 45) * w +
          (p.2 + r.f r.idx 5 45)) false = false :=
        hclear p (List.mem_cons_self p rest) _ hzone
      have hstep : spawnScary (p :: rest) flags w r =
          spawnScary rest (lset flags ((p.1 + r.f (r.idx + 1) 5 45) * w +
            (p.2 + r.f r.idx 5 45)) true) w ⟨r.idx + 2, r.f⟩ := by
        show spawnScary rest
          (if validIdx flags ((p.1 + r.f (r.idx + 1) 5 45) * w +
              (p.2 + r.f r.idx 5 45)) = true then
            lset flags ((p.1 + r.f (r.idx + 1) 5 45) * w + (p.2 + r.f r.idx 5 45)) true
          else flags) w ⟨r.idx + 2, r.f⟩ = _
        rw [if_pos hvb]
      rw [hstep]
      have hlen' : ((lset flags ((p.1 + r.f (r.idx + 1) 5 45) * w +
          (p.2 + r.f r.idx 5 45)) true).length : ℤ) = w * h := by
        rw [length_lset]
        exact hlen
      have hclear' : ∀ yx ∈ rest, ∀ i, inZone w yx i →
          lgetD (lset flags ((p.1 + r.f (r.idx + 1) 5 45) * w +
            (p.2 + r.f r.idx 5 45)) true) i false = false := by
        intro q hq i hzq
        have hpq : p ≠ q := by
          intro hpq
          subst hpq
          exact (List.nodup_cons.mp hnodup).1 hq
        have hne : ((p.1 + r.f (r.idx + 1) 5 45) * w + (p.2 + r.f r.idx 5 45)) ≠ i := by
          intro hii
          apply hpq
          refine sector_idx_unique w hw p q ?_ ?_ i ?_ hzq
          · have hf := hform p (List.mem_cons_self p rest)
            exact ⟨hf.1, hf.2.1, hf.2.2.2.2.1, hf.2.2.2.2.2⟩
          · have hf := hform q (List.mem_cons_of_mem p hq)
            exact ⟨hf.1, hf.2.1, hf.2.2.2.2.1, hf.2.2.2.2.2⟩
          · rw [← hii]
            exact hzone
        rw [lgetD_lset_ne flags _ i true false hne]
        exact hclear q (List.mem_cons_of_mem p hq) i hzq
      have hrec := ih (lset flags ((p.1 + r.f (r.idx + 1) 5 45) * w +
          (p.2 + r.f r.idx 5 45)) true) ⟨r.idx + 2, r.f⟩ hr hlen'
        (fun yx hm => hform yx (List.mem_cons_of_mem p hm))
        (List.nodup_cons.mp hnodup).2 hclear'
      refine ⟨?_, ?_, ?_⟩
      · rw [hrec.1, length_lset]
      · rw [hrec.2.1, countTrue_lset_true flags _ hvalid.1 (by omega) hfresh]
        simp [List.length_cons]
        omega
      · intro i hi
        rcases hrec.2.2 i hi with hcase | ⟨yx, hyx, hz⟩
        · rcases lgetD_lset_true_cases flags _ i hcase with hold | heq
          · exact Or.inl hold
          · refine Or.inr ⟨p, List.mem_cons_self p rest, ?_⟩
            rw [heq]
            exact hzone
        · exact Or.inr ⟨yx, List.mem_cons_of_mem p hyx, hz⟩

theorem sectorPairs_eq (s : TState) (wa hb : ℕ)
    (hW : s.globalMapWidth = 50 * ((wa : ℤ) + 1))
    (hH : s.globalMapHeight = 50 * ((hb : ℤ) + 1)) :
    sectorPairs s = ((List.range (hb + 1)).map (fun (j : ℕ) => (50 : ℤ) * j)).flatMap
      (fun y => ((List.range (wa + 1)).map (fun (j : ℕ) => (50 : ℤ) * j)).map
        (fun x => (y, x))) := by
  unfold sectorPairs
  rw [hW, hH, sectorStarts_mult, sectorStarts_mult]

theorem sectorPairs_form (s : TState) (wa hb : ℕ)
    (hW : s.globalMapWidth = 50 * ((wa : ℤ) + 1))
    (hH : s.globalMapHeight = 50 * ((hb : ℤ) + 1)) :
    ∀ yx ∈ sectorPairs s, SectorForm s.globalMapWidth s.globalMapHeight yx := by
  intro yx hm
  rw [sectorPairs_eq s wa hb hW hH] at hm
  rcases List.mem_flatMap.mp hm with ⟨y, hy, hmx⟩
  rcases List.mem_map.mp hmx with ⟨x, hx, rfl⟩
  rcases List.mem_map.mp hy with ⟨jy, hjy, rfl⟩
  rcases List.mem_map.mp hx with ⟨jx, hjx, rfl⟩
  rw [List.mem_range] at hjy hjx
  refine ⟨dvd_mul_right 50 _, dvd_mul_right 50 _, by positivity, ?_, by positivity, ?_⟩
  · rw [hH]
    omega
  · rw [hW]
    omega

theorem inj_mul50 : Function.Injective (fun j : ℕ => (50 : ℤ) * j) := by
  intro a b h
  simp only at h
  omega

theorem sectorPairs_nodup (s : TState) (wa hb : ℕ)
    (hW : s.globalMapWidth = 50 * ((wa : ℤ) + 1))
    (hH : s.globalMapHeight = 50 * ((hb : ℤ) + 1)) :
    (sectorPairs s).Nodup := by
  rw [sectorPairs_eq s wa hb hW hH]
  rw [List.nodup_flatMap]
  constructor
  · intro y _
    exact List.Nodup.map (fun a b h => by simpa using congrArg Prod.snd h)
      (List.Nodup.map inj_mul50 (List.nodup_range (wa + 1)))
  · refine List.Pairwise.imp ?_
      ((List.Nodup.map inj_mul50 (List.nodup_range (hb + 1))) :
        ((List.range (hb + 1)).map (fun (j : ℕ) => (50 : ℤ) * j)).Pairwise (· ≠ ·))
    intro y y' hyy a ha ha'
    rcases List.mem_map.mp ha with ⟨x, _, rfl⟩
    rcases List.mem_map.mp ha' with ⟨x', _, hEq⟩
    exact hyy (congrArg Prod.fst hEq).symm

theorem length_flatMap_const {α β : Type} (l : List α) (f : α → List β) (c : ℕ)
    (h : ∀ a ∈ l, (f a).length = c) : (l.flatMap f).length = l.length * c := by
  induction l with
  | nil => simp
  | cons a t ih =>
      rw [List.flatMap_cons, List.length_append, h a (List.mem_cons_self a t),
        ih (fun b hb => h b (List.mem_cons_of_mem a hb))]
      simp [List.length_cons]
      ring

theorem sectorPairs_length (s : TState) (wa hb : ℕ)
    (hW : s.globalMapWidth = 50 * ((wa : ℤ) + 1))
    (hH : s.globalMapHeight = 50 * ((hb : ℤ) + 1)) :
    (sectorPairs s).length = (hb + 1) * (wa + 1) := by
  rw [sectorPairs_eq s wa hb hW hH]
  rw [length_flatMap_const _ _ (wa + 1) (fun a _ => by simp)]
  simp

theorem countTrue_replicate_false (n : ℕ) :
    countTrue (List.replicate n false) = 0 := by
  induction n with
  | zero => rfl
  | succ m ih =>
      show countTrue (false :: List.replicate m false) = 0
      unfold countTrue at ih ⊢
      rw [List.countP_cons]
      simp [ih]

/-- C6 (amended): after `generateGrid` on a grid whose width and height are
positive multiples of 50 (as the default 1000 by 1000 is), the value array
has exactly width*height cells, every value lies in [1, 9], and exactly
(width/50)*(height/50) scary flags are set — every set flag lying at an
interior offset 5..45 of its own 50 by 50 sector.  (For dimensions that are
not multiples of 50 the claimed count fails: see the counterexample.) -/
theorem c6_generation_invariant (s : TState) (r : Rng) (wa hb : ℕ) (hr : RngOk r.f)
    (hW : s.globalMapWidth = 50 * ((wa : ℤ) + 1))
    (hH : s.globalMapHeight = 50 * ((hb : ℤ) + 1)) :
    (generateGrid s r).1.globalGridNumbers.length =
      (s.globalMapWidth * s.globalMapHeight).toNat ∧
    (∀ v ∈ (generateGrid s r).1.globalGridNumbers, 1 ≤ v ∧ v ≤ 9) ∧
    countTrue (generateGrid s r).1.scaryActive = (hb + 1) * (wa + 1) ∧
    (∀ i, lgetD (generateGrid s r).1.scaryActive i false = true →
      ∃ yx ∈ sectorPairs s, inZone s.globalMapWidth yx i) := by
  have hw : 0 < s.globalMapWidth := by
    rw [hW]
    positivity
  have htotal : ((List.replicate (s.globalMapWidth * s.globalMapHeight).toNat
      false).length : ℤ) = s.globalMapWidth * s.globalMapHeight := by
    rw [List.length_replicate, Int.toNat_of_nonneg]
    rw [hW, hH]
    positivity
  have hrok : RngOk (fillRandom (s.globalMapWidth * s.globalMapHeight).toNat r).2.f := by
    rw [fillRandom_f]
    exact hr
  have hspec := spawnScary_spec s.globalMapWidth s.globalMapHeight hw (sectorPairs s)
    (List.replicate (s.globalMapWidth * s.globalMapHeight).toNat false)
    (fillRandom (s.globalMapWidth * s.globalMapHeight).toNat r).2 hrok htotal
    (sectorPairs_form s wa hb hW hH) (sectorPairs_nodup s wa hb hW hH)
    (fun _ _ i _ => lgetD_replicate _ i)
  refine ⟨?_, ?_, ?_, ?_⟩
  · exact fillRandom_length _ _
  · intro v hv
    exact fillRandom_mem _ r hr v hv
  · show countTrue (spawnScary (sectorPairs s)
      (List.replicate (s.globalMapWidth * s.globalMapHeight).toNat false)
      s.globalMapWidth
      (fillRandom (s.globalMapWidth * s.globalMapHeight).toNat r).2).1 = _
    rw [hspec.2.1, countTrue_replicate_false, sectorPairs_length s wa hb hW hH]
    omega
  · intro i hi
    rcases hspec.2.2 i hi with hcase | h
    · rw [lgetD_replicate] at hcase
      cases hcase
    · exact h

/-- A 50 by 50 global map (the smallest grid whose dimensions are positive
multiples of 50). -/
def genState : TState :=
  { baseState with globalMapWidth := 50, globalMapHeight := 50 }

/-- Witness for C6 on a 50 by 50 grid with the lower-bound oracle. -/
theorem c6_generation_invariant_witness :
    (generateGrid genState loRng).1.globalGridNumbers.length =
      (genState.globalMapWidth * genState.globalMapHeight).toNat ∧
    (∀ v ∈ (generateGrid genState loRng).1.globalGridNumbers, 1 ≤ v ∧ v ≤ 9) ∧
    countTrue (generateGrid genState loRng).1.scaryActive = (0 + 1) * (0 + 1) ∧
    (∀ i, lgetD (generateGrid genState loRng).1.scaryActive i false = true →
      ∃ yx ∈ sectorPairs genState, inZone genState.globalMapWidth yx i) :=
  c6_generation_invariant genState loRng 0 0 loRng_ok (by decide) (by decide)

/-- C6 counterexample: on a 1 by 1 grid (width and height positive but not
multiples of 50), the single sector's draw lands outside the array, so ZERO
scary flags are set, while the claim demands ceil(1/50)*ceil(1/50) = 1. -/
theorem c6_counterexample :
    countTrue (generateGrid primeGenState loRng).1.scaryActive = 0 ∧
    ((1 + 49) / 50) * ((1 + 49) / 50) = 1 := by
  constructor
  · decide
  · decide

end ProjectRefinement
